import Mathlib

/-!
# libDaisy: SSD1327 / SSD1351 OLED drivers and the DaisyDSP board

A shallow embedding of `src/dev/oled_ssd1327.h`, `src/dev/oled_ssd1351.h` and
`src/daisy_dsp.cpp`.

Conventions of the embedding:

* machine integers are naturals; a conversion to `uint8_t`, `uint16_t`,
  `uint32_t` / `size_t` is an explicit remainder;
* the `Transport` template parameter of a driver is represented by the list of
  calls the driver has made on it, oldest first;
* a `for` loop with a fixed bound is `forUp` (ascending) or `forDown`
  (descending to 1);
* array indices are computed in the naturals: an array of `width * height`
  elements that exists in memory has all its indices below `2 ^ 32`;
* a finite `float` is the rational it denotes, and a `float` operation is the exact
  operation followed by rounding to binary32 (`roundF32`).
-/

namespace daisy

/-! ## Machine integers and loops -/

/-- Conversion to `uint8_t`. -/
def u8 (n : Nat) : Nat := n % 256

/-- Conversion to `uint16_t`. -/
def u16 (n : Nat) : Nat := n % 65536

/-- Conversion to `uint32_t`; `size_t` and `uint_fast8_t` are this type on the
board's target (32-bit ARM). -/
def u32 (n : Nat) : Nat := n % 4294967296

/-- Subtraction of two `uint32_t` / `size_t` values, wrapping around. -/
def sub32 (a b : Nat) : Nat := (u32 a + 4294967296 - u32 b) % 4294967296

/-- The loop `for (i = 0; i < n; i++) body(i)` over a state. -/
def forUp {σ : Type} (n : Nat) (body : Nat → σ → σ) (s : σ) : σ :=
  (List.range n).foldl (fun acc i => body i acc) s

/-- The loop `for (j = n; j > 0; j--) body(j)` over a state. -/
def forDown {σ : Type} : Nat → (Nat → σ → σ) → σ → σ
  | 0, _, s => s
  | n + 1, body, s => forDown n body (body (n + 1) s)

/-! ## Transport -/

/-- What a driver asks of its transport (and of `System::Delay`), in order. -/
inductive TransportEvent where
  | init : TransportEvent
  | command (cmd : Nat) : TransportEvent
  | data (buff : List Nat) : TransportEvent
  | delay (ms : Nat) : TransportEvent
  deriving DecidableEq, Repr

/-- Member `Transport::SendCommand(uint8_t cmd)`. -/
def SendCommand (cmd : Nat) (t : List TransportEvent) : List TransportEvent :=
  t ++ [TransportEvent.command (u8 cmd)]

/-- Member `Transport::SendData(uint8_t* buff, size_t size)`: the `size` bytes at `buff`. -/
def SendData (buff : List Nat) (t : List TransportEvent) : List TransportEvent :=
  t ++ [TransportEvent.data buff]

/-- Member `Transport::SendData(uint8_t data)`. -/
def SendDataByte (b : Nat) (t : List TransportEvent) : List TransportEvent :=
  t ++ [TransportEvent.data [u8 b]]

/-- Sends a run of single-byte commands, first to last. -/
def SendCommands (cmds : List Nat) (t : List TransportEvent) : List TransportEvent :=
  cmds.foldl (fun acc c => SendCommand c acc) t

/-- The `size` bytes found at offset `off` of a byte array. -/
def slice (buf : List Nat) (off size : Nat) : List Nat := (buf.drop off).take size

/-- The bytes of an array of `uint16_t` as laid out in memory (little-endian). -/
def bytesLE (buf : List Nat) : List Nat :=
  buf.flatMap (fun v => [v % 256, (v / 256) % 256])

/-! ## SSD1327 driver (4-bit grayscale) -/

/-- State of `SSD1327Driver<width, height, Transport>`. -/
structure SSD1327Driver (width height : Nat) where
  transport_ : List TransportEvent
  buffer_ : List Nat
  color_ : Nat
  deriving DecidableEq, Repr

namespace SSD1327Driver

variable {width height : Nat}

/-- The array `uint8_t buffer_[width * height]` has its declared size. -/
def WF (s : SSD1327Driver width height) : Prop := s.buffer_.length = width * height

instance (s : SSD1327Driver width height) : Decidable s.WF := by
  unfold WF; infer_instance

/-- The transport calls of `SSD1327Driver::Init`, in order: `transport_.Init`, the
bring-up commands, `System::Delay(200)`, display on. -/
def bringUp (t : List TransportEvent) : List TransportEvent :=
  let t := t ++ [TransportEvent.init]
  let t := SendCommands
    [0xae, 0x15, 0x00, 0x7f, 0x75, 0x00, 0x7f, 0x81, 0x80, 0xa0, 0x51, 0xa1, 0x00,
     0xa2, 0x00, 0xa4, 0xa8, 0x7f, 0xb1, 0xf1, 0xb3, 0x00, 0xab, 0x01, 0xb6, 0x0f,
     0xbe, 0x0f, 0xbc, 0x08, 0xd5, 0x62, 0xfd, 0x12] t
  let t := t ++ [TransportEvent.delay 200]
  SendCommand 0xaf t

/-- Member `SSD1327Driver::Init`: it only talks to the transport. -/
def Init (s : SSD1327Driver width height) : SSD1327Driver width height :=
  { s with transport_ := bringUp s.transport_ }

/-- Member `SSD1327Driver::Width`. -/
def Width (_s : SSD1327Driver width height) : Nat := width

/-- Member `SSD1327Driver::Height`. -/
def Height (_s : SSD1327Driver width height) : Nat := height

/-- Member `SSD1327Driver::DrawPixel`. -/
def DrawPixel (s : SSD1327Driver width height) (x y : Nat) (on_ : Bool) :
    SSD1327Driver width height :=
  if x ≥ width ∨ y ≥ height then s
  else if on_ then
    { s with buffer_ := (List.set s.buffer_ (x + (y / 2) * width)
        (u8 (s.buffer_.getD (x + (y / 2) * width) 0 ||| s.color_))) }
  else
    { s with buffer_ := List.set s.buffer_ (x + (y / 2) * width) 0 }

/-- Member `SSD1327Driver::Fill`; `sizeof(buffer_)` is `width * height`. -/
def Fill (s : SSD1327Driver width height) (on_ : Bool) : SSD1327Driver width height :=
  forUp (width * height)
    (fun i st => { st with buffer_ := List.set st.buffer_ i (if on_ then 0xff else 0x00) }) s

/-- Member `SSD1327Driver::Update`; the loop state is the transport and `pBuf`. -/
def Update (s : SSD1327Driver width height) : SSD1327Driver width height :=
  let t := SendCommand 0x15 s.transport_
  let t := SendCommand 0x00 t
  let t := SendCommand (sub32 width 1) t
  let t := SendCommand 0x75 t
  let t := SendCommand 0x00 t
  let t := SendCommand (sub32 height 1) t
  let r := forUp height
    (fun _line (st : List TransportEvent × Nat) =>
      (SendData (slice s.buffer_ st.2 (width / 2)) st.1, st.2 + width / 2)) (t, 0)
  { s with transport_ := r.1 }

/-- Member `SSD1327Driver::Set_Color`. -/
def Set_Color (s : SSD1327Driver width height) (in_col : Nat) : SSD1327Driver width height :=
  { s with color_ := u8 in_col &&& 0x0f }

end SSD1327Driver

/-! ## SSD1351 driver (16-bit colour) -/

/-- State of `SSD1351Driver<width, height, Transport>`. -/
structure SSD1351Driver (width height : Nat) where
  transport_ : List TransportEvent
  buffer_ : List Nat
  fg_color_ : Nat
  bg_color_ : Nat
  deriving DecidableEq, Repr

namespace SSD1351Driver

variable {width height : Nat}

/-- The array `uint16_t buffer_[width * height]` has its declared size. -/
def WF (s : SSD1351Driver width height) : Prop := s.buffer_.length = width * height

instance (s : SSD1351Driver width height) : Decidable s.WF := by
  unfold WF; infer_instance

/-- Member `SSD1351Driver::DrawPixel`. -/
def DrawPixel (s : SSD1351Driver width height) (x y : Nat) (on_ : Bool) :
    SSD1351Driver width height :=
  if x ≥ width ∨ y ≥ height then s
  else if on_ then
    { s with buffer_ := List.set s.buffer_ ((y * width) + x) s.fg_color_ }
  else
    { s with buffer_ := List.set s.buffer_ ((y * width) + x) s.bg_color_ }

/-- Member `SSD1351Driver::Fill`; `sizeof(buffer_)` is `2 * (width * height)`. -/
def Fill (s : SSD1351Driver width height) (on_ : Bool) : SSD1351Driver width height :=
  forUp (2 * (width * height) / 2)
    (fun i st => { st with buffer_ := (List.set st.buffer_ i
      (if on_ then st.fg_color_ else st.bg_color_)) }) s

/-- The transport calls of `SSD1351Driver::Init`, in order: `transport_.Init`, the
bring-up commands and their data bytes, `System::Delay(200)`, display on. -/
def bringUp (t : List TransportEvent) : List TransportEvent :=
  let t := t ++ [TransportEvent.init]
  let t := SendCommand 0xae t
  let t := SendCommand 0xa4 t
  let t := SendCommand 0x15 t
  let t := SendDataByte 0x00 t
  let t := SendDataByte 0x7f t
  let t := SendCommand 0x75 t
  let t := SendDataByte 0x00 t
  let t := SendDataByte 0x7f t
  let t := SendCommand 0xB3 t
  let t := SendDataByte 0xF1 t
  let t := SendCommand 0xCA t
  let t := SendDataByte 0x7F t
  let t := SendCommand 0xa0 t
  let t := SendDataByte 0x74 t
  let t := SendCommand 0xa1 t
  let t := SendDataByte 0x00 t
  let t := SendCommand 0xa2 t
  let t := SendDataByte 0x00 t
  let t := SendCommand 0xAB t
  let t := SendCommand 0x01 t
  let t := SendCommand 0xB4 t
  let t := SendDataByte 0xA0 t
  let t := SendDataByte 0xB5 t
  let t := SendDataByte 0x55 t
  let t := SendCommand 0xC1 t
  let t := SendDataByte 0xC8 t
  let t := SendDataByte 0x80 t
  let t := SendDataByte 0xC0 t
  let t := SendCommand 0xC7 t
  let t := SendDataByte 0x0F t
  let t := SendCommand 0xB1 t
  let t := SendDataByte 0x32 t
  let t := SendCommand 0xB2 t
  let t := SendDataByte 0xA4 t
  let t := SendDataByte 0x00 t
  let t := SendDataByte 0x00 t
  let t := SendCommand 0xBB t
  let t := SendDataByte 0x17 t
  let t := SendCommand 0xB6 t
  let t := SendDataByte 0x01 t
  let t := SendCommand 0xBE t
  let t := SendDataByte 0x05 t
  let t := SendCommand 0xA6 t
  let t := t ++ [TransportEvent.delay 200]
  SendCommand 0xaf t

/-- Member `SSD1351Driver::Init`. -/
def Init (s : SSD1351Driver width height) : SSD1351Driver width height :=
  let s : SSD1351Driver width height := { s with fg_color_ := 0xffff }
  let s : SSD1351Driver width height := { s with bg_color_ := 0x0000 }
  let s : SSD1351Driver width height := { s with transport_ := bringUp s.transport_ }
  Fill s false

/-- Member `SSD1351Driver::Width`. -/
def Width (_s : SSD1351Driver width height) : Nat := width

/-- Member `SSD1351Driver::Height`. -/
def Height (_s : SSD1351Driver width height) : Nat := height

/-- Member `SSD1351Driver::Update`; `sizeof(buffer_)` bytes are sent in one call. -/
def Update (s : SSD1351Driver width height) : SSD1351Driver width height :=
  let t := SendCommand 0x15 s.transport_
  let t := SendCommand 0x00 t
  let t := SendCommand (sub32 width 1) t
  let t := SendCommand 0x75 t
  let t := SendCommand 0x00 t
  let t := SendCommand (sub32 height 1) t
  let t := SendData (slice (bytesLE s.buffer_) 0 (2 * (width * height))) t
  { s with transport_ := t }

/-- Member `SSD1351Driver::Set_FgColor`. -/
def Set_FgColor (s : SSD1351Driver width height) (in_col : Nat) : SSD1351Driver width height :=
  { s with fg_color_ := u16 in_col }

/-- Member `SSD1351Driver::Set_BgColor`. -/
def Set_BgColor (s : SSD1351Driver width height) (in_col : Nat) : SSD1351Driver width height :=
  { s with bg_color_ := u16 in_col }

end SSD1351Driver

/-! ## DaisyDSP board -/

/-- Enumerator `DaisyDSP::Ctrl::CTRL_LAST`: the number of control channels. -/
abbrev CTRL_LAST : Nat := 4

/-- The loop `for (i = 0; i < n; i++) body(i)` where `i` indexes an array of `n` elements. -/
def forFin {σ : Type} (n : Nat) (body : Fin n → σ → σ) (s : σ) : σ :=
  (List.finRange n).foldl (fun acc i => body i acc) s

/-! ### Single-precision arithmetic

A finite `float` is represented by the rational it denotes. The target computes in
binary32 (24-bit significand, least exponent `2 ^ (-149)`), round to nearest, ties to
even. Overflow to infinity is left out: it starts at `2 ^ 128`, far above every
product of a control value and a display height. -/

/-- A finite binary32 value: significand `m` with `|m| < 2 ^ 24`, exponent `e` between
`-149` and `104`; it denotes `m * 2 ^ e`. -/
structure F32 where
  m : Int
  e : Int
  m_lt : m.natAbs < 16777216
  e_ge : -149 ≤ e
  e_le : e ≤ 104

/-- The rational a binary32 value denotes. -/
def F32.toRat (x : F32) : ℚ := (x.m : ℚ) * 2 ^ x.e

/-- Round to the nearest integer, ties to the even one. -/
def roundHalfEven (n : ℚ) : ℤ :=
  if n - (⌊n⌋ : ℚ) < 1 / 2 then ⌊n⌋
  else if 1 / 2 < n - (⌊n⌋ : ℚ) then ⌊n⌋ + 1
  else if ⌊n⌋ % 2 = 0 then ⌊n⌋ else ⌊n⌋ + 1

/-- The exponent of the binary32 unit in the last place at a magnitude `q > 0`:
`e - 23` where `2 ^ e ≤ q < 2 ^ (e + 1)`, and `-149` in the subnormal range. -/
def ulpExp (q : ℚ) : ℤ := max (Int.log 2 q) (-126) - 23

/-- Rounding of a rational to binary32: the nearest multiple of the unit in the last
place, ties to the even significand. -/
def roundF32 (q : ℚ) : ℚ :=
  if q = 0 then 0
  else if 0 < q then (roundHalfEven (q / 2 ^ ulpExp q) : ℚ) * 2 ^ ulpExp q
  else -((roundHalfEven (-q / 2 ^ ulpExp (-q)) : ℚ) * 2 ^ ulpExp (-q))

/-- The product of two `float` values, computed in binary32. -/
def f32mul (a b : ℚ) : ℚ := roundF32 (a * b)

/-- Conversion of a `size_t` to `float`. -/
def f32ofSizeT (n : Nat) : ℚ := roundF32 (n : ℚ)

/-- Conversion of a non-negative `float` to `size_t`: the fractional part is
discarded. -/
def toSizeT (q : ℚ) : Nat := u32 (Nat.floor q)

/-- Operations of the board's `display` member. Its class, `OledDisplay` over the
SSD130x driver, is declared outside these sources, so the display is a parameter:
any type with the driver interface (`Init`, `Height`, `Fill`, `DrawPixel`, `Update`). -/
structure DisplayOps (D : Type) where
  Init : D → D
  Height : D → Nat
  Fill : D → Bool → D
  DrawPixel : D → Nat → Nat → Bool → D
  Update : D → D

/-- Operations of the board's `seed` member (`DaisySeed`, declared outside these
sources) that the board calls; `R` is the type of a rate in Hz, `SR` the
enumeration `SaiHandle::Config::SampleRate`. -/
structure SeedOps (S R SR : Type) where
  Configure : S → S
  Init : S → Bool → S
  AdcInit : S → S
  SetAudioSampleRate : S → SR → S
  SetAudioBlockSize : S → Nat → S
  AudioCallbackRate : S → R

/-- Operations of a control channel (`AnalogControl`, declared outside these
sources) that the board calls; `Init` receives the index of its ADC channel, and
`Value` returns a finite `float`. -/
structure ControlOps (C R : Type) where
  Init : C → Nat → R → Bool → C
  SetSampleRate : C → R → C
  Process : C → C
  Value : C → F32

/-- Operations of the board's `encoder` member (`Encoder`, declared outside these sources). -/
structure EncoderOps (E : Type) where
  Init : E → E
  Debounce : E → E

/-- State of a `DaisyDSP` board. -/
structure DaisyDSP (S E C D : Type) where
  seed : S
  encoder : E
  controls : Fin CTRL_LAST → C
  display : D
  screen_update_last_ : Nat
  screen_update_period_ : Nat

namespace DaisyDSP

variable {S E C D R SR : Type}

/-- Member `DaisyDSP::AudioCallbackRate`. -/
def AudioCallbackRate (sops : SeedOps S R SR) (s : DaisyDSP S E C D) : R :=
  sops.AudioCallbackRate s.seed

/-- Member `DaisyDSP::SetHidUpdateRates`. -/
def SetHidUpdateRates (sops : SeedOps S R SR) (cops : ControlOps C R)
    (s : DaisyDSP S E C D) : DaisyDSP S E C D :=
  forFin CTRL_LAST
    (fun i st => { st with controls :=
      (Function.update st.controls i
        (cops.SetSampleRate (st.controls i) (AudioCallbackRate sops st))) }) s

/-- Member `DaisyDSP::SetAudioSampleRate`. -/
def SetAudioSampleRate (sops : SeedOps S R SR) (cops : ControlOps C R)
    (s : DaisyDSP S E C D) (samplerate : SR) : DaisyDSP S E C D :=
  let s : DaisyDSP S E C D := { s with seed := sops.SetAudioSampleRate s.seed samplerate }
  SetHidUpdateRates sops cops s

/-- Member `DaisyDSP::SetAudioBlockSize`. -/
def SetAudioBlockSize (sops : SeedOps S R SR) (cops : ControlOps C R)
    (s : DaisyDSP S E C D) (size : Nat) : DaisyDSP S E C D :=
  let s : DaisyDSP S E C D := { s with seed := sops.SetAudioBlockSize s.seed size }
  SetHidUpdateRates sops cops s

/-- Member `DaisyDSP::ProcessAnalogControls`. -/
def ProcessAnalogControls (cops : ControlOps C R) (s : DaisyDSP S E C D) : DaisyDSP S E C D :=
  forFin CTRL_LAST
    (fun i st => { st with controls :=
      (Function.update st.controls i (cops.Process (st.controls i))) }) s

/-- Member `DaisyDSP::GetKnobValue`. -/
def GetKnobValue (cops : ControlOps C R) (s : DaisyDSP S E C D) (k : Fin CTRL_LAST) : F32 :=
  cops.Value (s.controls k)

/-- Member `DaisyDSP::InitControls`. -/
def InitControls (sops : SeedOps S R SR) (cops : ControlOps C R)
    (s : DaisyDSP S E C D) : DaisyDSP S E C D :=
  let s : DaisyDSP S E C D := { s with seed := sops.AdcInit s.seed }
  forFin CTRL_LAST
    (fun i st => { st with controls :=
      (Function.update st.controls i
        (cops.Init (st.controls i) i.val (AudioCallbackRate sops st) true)) }) s

/-- Member `DaisyDSP::InitDisplay`. -/
def InitDisplay (dops : DisplayOps D) (s : DaisyDSP S E C D) : DaisyDSP S E C D :=
  { s with display := dops.Init s.display }

/-- Member `DaisyDSP::InitEncoder`. -/
def InitEncoder (eops : EncoderOps E) (s : DaisyDSP S E C D) : DaisyDSP S E C D :=
  { s with encoder := eops.Init s.encoder }

/-- Member `DaisyDSP::Init`; `now` is what `seed.system.GetNow()` returns. -/
def Init (sops : SeedOps S R SR) (eops : EncoderOps E) (dops : DisplayOps D)
    (cops : ControlOps C R) (s : DaisyDSP S E C D) (boost : Bool) (now : Nat) :
    DaisyDSP S E C D :=
  let s : DaisyDSP S E C D := { s with seed := sops.Configure s.seed }
  let s : DaisyDSP S E C D := { s with seed := sops.Init s.seed boost }
  let s := InitEncoder eops s
  let s := InitDisplay dops s
  let s := InitControls sops cops s
  let s : DaisyDSP S E C D := { s with screen_update_period_ := 17 }
  { s with screen_update_last_ := u32 now }

/-- Member `DaisyDSP::DisplayControls`. `now` is what `seed.system.GetNow()` returns in the
condition and `stamp` what it returns when `screen_update_last_` is assigned.
The arithmetic on `curx`, `cury`, `j`, `k` is that of `size_t`; `dest` is the binary32
product of `v` and the height converted to `float`, converted to `size_t`. -/
def DisplayControls (dops : DisplayOps D) (cops : ControlOps C R)
    (s : DaisyDSP S E C D) (invert : Bool) (now stamp : Nat) : DaisyDSP S E C D :=
  let on_ : Bool := if invert then false else true
  let off : Bool := if invert then true else false
  if sub32 now s.screen_update_last_ > s.screen_update_period_ then
    let s : DaisyDSP S E C D := { s with screen_update_last_ := u32 stamp }
    let barwidth : Nat := 15
    let barspacing : Nat := 20
    let d := dops.Fill s.display off
    let d := forFin CTRL_LAST
      (fun i d =>
        let curx := u32 (u32 (u32 (barspacing * i.val) + 1) + u32 (barwidth * i.val))
        let cury := u32 (dops.Height d)
        let v := GetKnobValue cops s i
        let dest := toSizeT (f32mul v.toRat (f32ofSizeT (dops.Height d)))
        forDown dest
          (fun j d =>
            forUp barwidth (fun k d => dops.DrawPixel d (u32 (curx + k)) (sub32 cury j) on_) d)
          d)
      d
    let d := dops.Update d
    { s with display := d }
  else s

end DaisyDSP

/-! ## Observing the board's display -/

/-- One call on the display interface. -/
inductive DisplayCall where
  | Init : DisplayCall
  | Fill (on_ : Bool) : DisplayCall
  | DrawPixel (x y : Nat) (on_ : Bool) : DisplayCall
  | Update : DisplayCall
  deriving DecidableEq, Repr

/-- A display of a given height that keeps the calls made on it, oldest first. -/
structure CallLog where
  height : Nat
  calls : List DisplayCall
  deriving DecidableEq, Repr

/-- The display interface of a `CallLog`. -/
def callLogOps : DisplayOps CallLog where
  Init := fun d => { d with calls := d.calls ++ [DisplayCall.Init] }
  Height := fun d => d.height
  Fill := fun d b => { d with calls := d.calls ++ [DisplayCall.Fill b] }
  DrawPixel := fun d x y b => { d with calls := d.calls ++ [DisplayCall.DrawPixel x y b] }
  Update := fun d => { d with calls := d.calls ++ [DisplayCall.Update] }

/-- How many times `Update` was called. -/
def updateCount (d : CallLog) : Nat := d.calls.count DisplayCall.Update

/-- The SSD1327 driver behind the display interface. -/
def ssd1327Ops (width height : Nat) : DisplayOps (SSD1327Driver width height) where
  Init := SSD1327Driver.Init
  Height := SSD1327Driver.Height
  Fill := SSD1327Driver.Fill
  DrawPixel := SSD1327Driver.DrawPixel
  Update := SSD1327Driver.Update

/-- The SSD1351 driver behind the display interface. -/
def ssd1351Ops (width height : Nat) : DisplayOps (SSD1351Driver width height) where
  Init := SSD1351Driver.Init
  Height := SSD1351Driver.Height
  Fill := SSD1351Driver.Fill
  DrawPixel := SSD1351Driver.DrawPixel
  Update := SSD1351Driver.Update

/-- Successive calls of `DisplayControls` from the caller's loop, each with its
`invert` argument and its two clock readings. -/
def DisplayControlsRun {S E C D R : Type} (dops : DisplayOps D) (cops : ControlOps C R) :
    DaisyDSP S E C D → List (Bool × Nat × Nat) → DaisyDSP S E C D
  | s, [] => s
  | s, c :: rest =>
    DisplayControlsRun dops cops (DaisyDSP.DisplayControls dops cops s c.1 c.2.1 c.2.2) rest

/-- The `DrawPixel` calls that `DisplayControls` makes for channel `i` on a display of
height `H` when the channel's value denotes `v`: the two inner loops, in order. -/
def barCalls (H i : Nat) (v : ℚ) (on_ : Bool) : List DisplayCall :=
  (List.range (toSizeT (f32mul v (f32ofSizeT H)))).flatMap (fun r =>
    (List.range 15).map (fun k =>
      DisplayCall.DrawPixel (u32 (u32 (u32 (u32 (20 * i) + 1) + u32 (15 * i)) + k))
        (sub32 (u32 H) (toSizeT (f32mul v (f32ofSizeT H)) - r)) on_))

/-! ## Reference notions used in the statements -/

/-- The rectangle of a bar: columns `x0 .. x0 + 14` and the lowest `rows` rows of a
display of height `H`, listed row by row from the top row of the bar downwards. -/
def barRectangle (H x0 rows : Nat) (on_ : Bool) : List DisplayCall :=
  (List.range rows).flatMap (fun r =>
    (List.range 15).map (fun k => DisplayCall.DrawPixel (x0 + k) (H - rows + r) on_))

/-- The data bytes a transport has been sent, in order: the payloads of its data
transfers put end to end. -/
def dataBytes : List TransportEvent → List Nat
  | [] => []
  | TransportEvent.data buff :: rest => buff ++ dataBytes rest
  | _ :: rest => dataBytes rest

/-- The 4-bit pixel in the low half of a byte. -/
def lowNibble (b : Nat) : Nat := b % 16

/-- The 4-bit pixel in the high half of a byte. -/
def highNibble (b : Nat) : Nat := b / 16 % 16

/-- Writing `v` at the indices `0 .. n-1` of a list, one index at a time. -/
def setPrefix (v : Nat) : Nat → List Nat → List Nat
  | 0, l => l
  | n + 1, l => List.set (setPrefix v n l) n v

/-! ## Sample states -/

/-- An SSD1327 driver whose buffer holds `v` in every byte and whose colour is `c`. -/
def SSD1327Driver.uniform (width height v c : Nat) : SSD1327Driver width height :=
  { transport_ := [], buffer_ := List.replicate (width * height) v, color_ := c }

/-- An SSD1351 driver whose buffer holds `v` in every slot. -/
def SSD1351Driver.uniform (width height v fg bg : Nat) : SSD1351Driver width height :=
  { transport_ := [], buffer_ := List.replicate (width * height) v, fg_color_ := fg,
    bg_color_ := bg }

/-- Control channels that are plain values: the value read is the value held, and the
sample rate is not kept. -/
def valueControls : ControlOps F32 ℚ where
  Init := fun c _ _ _ => c
  SetSampleRate := fun c _ => c
  Process := fun c => c
  Value := fun c => c

/-- A board with a recording display of height `H`, the given control values, and
`screen_update_last_ = last`, `screen_update_period_ = 17`. -/
def sampleBoard (H : Nat) (vals : Fin CTRL_LAST → F32) (last : Nat) :
    DaisyDSP Unit Unit F32 CallLog :=
  { seed := (), encoder := (), controls := vals, display := { height := H, calls := [] },
    screen_update_last_ := last, screen_update_period_ := 17 }

/-- The binary32 value `m * 2 ^ e` of a small significand and exponent. -/
def F32.ofParts (m : Nat) (e : Int) (hm : m < 16777216) (h1 : -149 ≤ e) (h2 : e ≤ 104) :
    F32 :=
  { m := (m : Int), e := e, m_lt := by simpa using hm, e_ge := h1, e_le := h2 }

/-- The control values 0, 1/4, 1/2, 1. -/
def quarterValues : Fin CTRL_LAST → F32 :=
  fun i =>
    if i.val = 0 then F32.ofParts 0 0 (by decide) (by decide) (by decide)
    else if i.val = 1 then F32.ofParts 1 (-2) (by decide) (by decide) (by decide)
    else if i.val = 2 then F32.ofParts 1 (-1) (by decide) (by decide) (by decide)
    else F32.ofParts 1 0 (by decide) (by decide) (by decide)

/-- The control value 3/256 on every channel. -/
def lowValues : Fin CTRL_LAST → F32 :=
  fun _ => F32.ofParts 3 (-8) (by decide) (by decide) (by decide)

/-- The `float` nearest to 0.7, which is `11744051 / 2 ^ 24`. -/
def sevenTenths : F32 := F32.ofParts 11744051 (-24) (by decide) (by decide) (by decide)

/-- A seed without state whose audio callback rate is 1000 Hz. -/
def unitSeed : SeedOps Unit ℚ Unit where
  Configure := fun s => s
  Init := fun s _ => s
  AdcInit := fun s => s
  SetAudioSampleRate := fun s _ => s
  SetAudioBlockSize := fun s _ => s
  AudioCallbackRate := fun _ => 1000

/-- An encoder without state. -/
def unitEncoder : EncoderOps Unit where
  Init := fun e => e
  Debounce := fun e => e

/-! ## Loops and arithmetic -/

/-- One more iteration of an ascending loop runs the body at the old bound. -/
theorem forUp_succ {σ : Type} (n : Nat) (body : Nat → σ → σ) (s : σ) :
    forUp (n + 1) body s = body n (forUp n body s) := by
  simp [forUp, List.range_succ, List.foldl_append]

/-- The loop over the four control channels, unrolled. -/
theorem forFin_four {σ : Type} (body : Fin 4 → σ → σ) (s : σ) :
    forFin 4 body s = body 3 (body 2 (body 1 (body 0 s))) := rfl

theorem u32_of_lt {a : Nat} (ha : a < 4294967296) : u32 a = a := Nat.mod_eq_of_lt ha

theorem sub32_of_le {a b : Nat} (ha : a < 4294967296) (hb : b ≤ a) : sub32 a b = a - b := by
  unfold sub32 u32
  omega

/-- The command byte `width - 1` (or `height - 1`) of a panel of 1 to 256 pixels. -/
theorem u8_sub32_one {n : Nat} (h0 : 0 < n) (h : n ≤ 256) : u8 (sub32 n 1) = n - 1 := by
  unfold u8 sub32 u32
  omega

/-- Row-major addressing separates the pixels of a `width`-wide panel. -/
theorem rowMajor_inj {width x y x' y' : Nat} (hx : x < width) (hx' : x' < width)
    (h : y * width + x = y' * width + x') : x = x' ∧ y = y' := by
  have hw : 0 < width := Nat.lt_of_le_of_lt (Nat.zero_le _) hx
  have h1 : (y * width + x) % width = x := by
    rw [Nat.add_comm, Nat.add_mul_mod_self_right, Nat.mod_eq_of_lt hx]
  have h2 : (y' * width + x') % width = x' := by
    rw [Nat.add_comm, Nat.add_mul_mod_self_right, Nat.mod_eq_of_lt hx']
  have hxx : x = x' := by rw [← h1, ← h2, h]
  subst hxx
  have : y * width = y' * width := Nat.add_right_cancel h
  exact ⟨rfl, Nat.eq_of_mul_eq_mul_right hw this⟩

/-- A row-major index of a valid pixel lies inside the array. -/
theorem rowMajor_lt {width height x y : Nat} (hx : x < width) (hy : y < height) :
    y * width + x < width * height := by
  calc y * width + x < y * width + width := by omega
    _ = (y + 1) * width := by ring
    _ ≤ height * width := Nat.mul_le_mul_right _ hy
    _ = width * height := Nat.mul_comm _ _

/-! ## Buffers -/

theorem setPrefix_length (v : Nat) (n : Nat) (l : List Nat) :
    (setPrefix v n l).length = l.length := by
  induction n with
  | zero => rfl
  | succ n ih => simp [setPrefix, ih]

theorem setPrefix_getElem? (v : Nat) (n : Nat) (l : List Nat) (i : Nat) :
    (setPrefix v n l)[i]? = if i < n ∧ i < l.length then some v else l[i]? := by
  induction n with
  | zero => simp [setPrefix]
  | succ n ih =>
    simp only [setPrefix]
    by_cases hin : n = i
    · subst hin
      by_cases hl : n < l.length
      · rw [List.getElem?_set_self (by rw [setPrefix_length]; exact hl)]
        simp [hl]
      · rw [List.getElem?_eq_none (by rw [List.length_set, setPrefix_length]; omega)]
        have hl' : l.length ≤ n := by omega
        simp [hl, hl']
    · rw [List.getElem?_set_ne hin, ih]
      have : (i < n + 1 ∧ i < l.length) ↔ (i < n ∧ i < l.length) := by omega
      simp only [this]

/-- Writing `v` over a whole list leaves `v` everywhere. -/
theorem setPrefix_all (v : Nat) (l : List Nat) :
    setPrefix v l.length l = List.replicate l.length v := by
  apply List.ext_getElem?
  intro i
  rw [setPrefix_getElem?, List.getElem?_replicate]
  by_cases h : i < l.length
  · simp [h]
  · have h' : l.length ≤ i := by omega
    simp [h, h']

/-- The row loop of the 4-bit `Update`: one transfer per line, `k` bytes further each time. -/
theorem rowLoop_eq (buf : List Nat) (k : Nat) (t : List TransportEvent) (n : Nat) :
    forUp n (fun _line (st : List TransportEvent × Nat) =>
        (SendData (slice buf st.2 k) st.1, st.2 + k)) (t, 0)
      = (t ++ (List.range n).map (fun line => TransportEvent.data (slice buf (line * k) k)),
          n * k) := by
  induction n with
  | zero => simp [forUp]
  | succ n ih =>
    rw [forUp_succ, ih]
    simp [SendData, List.range_succ, Nat.succ_mul]

/-- Consecutive slices of `k` bytes, put end to end, are the first `n * k` bytes. -/
theorem slices_flatten (buf : List Nat) (k n : Nat) :
    ((List.range n).map (fun line => slice buf (line * k) k)).flatten = buf.take (n * k) := by
  induction n with
  | zero => simp
  | succ n ih =>
    rw [List.range_succ, List.map_append, List.flatten_append, ih, Nat.succ_mul, List.take_add]
    simp [slice]

/-- A slice that ends inside the array has the requested size. -/
theorem slice_length (buf : List Nat) (off k : Nat) (h : off + k ≤ buf.length) :
    (slice buf off k).length = k := by
  simp [slice]; omega

theorem bytesLE_length (buf : List Nat) : (bytesLE buf).length = 2 * buf.length := by
  induction buf with
  | nil => rfl
  | cons a l ih =>
    simp only [bytesLE, List.flatMap_cons, List.length_append, List.length_cons,
      List.length_nil] at ih ⊢
    omega

/-- Slot `i` of a 16-bit array occupies bytes `2 * i` (low) and `2 * i + 1` (high). -/
theorem bytesLE_getElem? (buf : List Nat) (i v : Nat) (h : buf[i]? = some v) :
    (bytesLE buf)[2 * i]? = some (v % 256) ∧
      (bytesLE buf)[2 * i + 1]? = some (v / 256 % 256) := by
  induction buf generalizing i with
  | nil => simp at h
  | cons a l ih =>
    cases i with
    | zero =>
      simp at h
      subst h
      simp [bytesLE]
    | succ i =>
      simp at h
      have := ih i h
      have e1 : 2 * (i + 1) = (2 * i) + 1 + 1 := by ring
      have e2 : 2 * (i + 1) + 1 = (2 * i + 1) + 1 + 1 := by ring
      rw [e2, e1]
      simpa [bytesLE] using this

/-! ## SSD1327 driver -/

namespace SSD1327Driver

variable {width height : Nat}

theorem uniform_WF_1327 (width height v c : Nat) : (uniform width height v c).WF := by
  simp [WF, uniform]

theorem DrawPixel_of_valid_1327 (s : SSD1327Driver width height) {x y : Nat}
    (hx : x < width) (hy : y < height) (b : Bool) :
    s.DrawPixel x y b =
      { s with buffer_ := (List.set s.buffer_ (x + (y / 2) * width)
          (if b then u8 (s.buffer_.getD (x + (y / 2) * width) 0 ||| s.color_) else 0)) } := by
  have hg : ¬ (x ≥ width ∨ y ≥ height) := by omega
  cases b <;> simp [DrawPixel, hg]

theorem Fill_loop_1327 (s : SSD1327Driver width height) (b : Bool) (n : Nat) :
    forUp n (fun i (st : SSD1327Driver width height) =>
        { st with buffer_ := List.set st.buffer_ i (if b then 0xff else 0x00) }) s
      = { s with buffer_ := setPrefix (if b then 0xff else 0x00) n s.buffer_ } := by
  induction n with
  | zero => rfl
  | succ n ih => rw [forUp_succ, ih]; rfl

/-- What `Fill` leaves in a well-formed driver. -/
theorem Fill_eq_1327 (s : SSD1327Driver width height) (hwf : s.WF) (b : Bool) :
    s.Fill b =
      { s with buffer_ := List.replicate (width * height) (if b then 0xff else 0x00) } := by
  unfold Fill
  rw [Fill_loop_1327]
  have := setPrefix_all (if b then 0xff else 0x00) s.buffer_
  rw [hwf] at this
  rw [this]

/-- Byte 0 of a uniform 128x128 panel after a `DrawPixel` in column 0 of row 0 or 1. -/
theorem uniform_DrawPixel_byte0_1327 (v c y : Nat) (hy : y < 2) (b : Bool) :
    ((uniform 128 128 v c).DrawPixel 0 y b).buffer_[0]? =
      some (if b then u8 (v ||| c) else 0) := by
  have hy2 : y / 2 = 0 := by omega
  rw [DrawPixel_of_valid_1327 _ (by decide) (by omega)]
  simp only [hy2, Nat.zero_mul, Nat.add_zero, uniform]
  have hget : (List.replicate (128 * 128) v).getD 0 0 = v := by
    rw [List.getD_eq_getElem?_getD, List.getElem?_replicate_of_lt (by decide)]
    rfl
  rw [List.getElem?_set_self (by rw [List.length_replicate]; decide), hget]

end SSD1327Driver

/-! ## SSD1351 driver -/

namespace SSD1351Driver

variable {width height : Nat}

theorem uniform_WF_1351 (width height v fg bg : Nat) : (uniform width height v fg bg).WF := by
  simp [WF, uniform]

theorem DrawPixel_of_valid_1351 (s : SSD1351Driver width height) {x y : Nat}
    (hx : x < width) (hy : y < height) (b : Bool) :
    s.DrawPixel x y b =
      { s with buffer_ := (List.set s.buffer_ (y * width + x)
          (if b then s.fg_color_ else s.bg_color_)) } := by
  have hg : ¬ (x ≥ width ∨ y ≥ height) := by omega
  cases b <;> simp [DrawPixel, hg]

theorem Fill_loop_1351 (s : SSD1351Driver width height) (b : Bool) (n : Nat) :
    forUp n (fun i (st : SSD1351Driver width height) =>
        { st with buffer_ := (List.set st.buffer_ i
          (if b then st.fg_color_ else st.bg_color_)) }) s
      = { s with buffer_ := setPrefix (if b then s.fg_color_ else s.bg_color_) n s.buffer_ } := by
  induction n with
  | zero => rfl
  | succ n ih => rw [forUp_succ, ih]; rfl

/-- What `Fill` leaves in a well-formed driver. -/
theorem Fill_eq_1351 (s : SSD1351Driver width height) (hwf : s.WF) (b : Bool) :
    s.Fill b = { s with buffer_ :=
      (List.replicate (width * height) (if b then s.fg_color_ else s.bg_color_)) } := by
  unfold Fill
  rw [Fill_loop_1351, Nat.mul_div_cancel_left _ (by decide : 0 < 2)]
  have := setPrefix_all (if b then s.fg_color_ else s.bg_color_) s.buffer_
  rw [hwf] at this
  rw [this]

/-- The 16-bit driver's `Init` ends with `Fill(false)` on background colour 0: whatever
was drawn before, every slot holds the background colour afterwards. -/
theorem Init_buffer_1351 (s : SSD1351Driver width height) (hwf : s.WF) :
    (SSD1351Driver.Init s).buffer_ = List.replicate (width * height) 0 ∧
    (SSD1351Driver.Init s).bg_color_ = 0 := by
  unfold SSD1351Driver.Init
  simp only []
  generalize bringUp s.transport_ = t
  rw [SSD1351Driver.Fill_eq_1351 _ (by exact hwf)]
  exact ⟨rfl, rfl⟩

end SSD1351Driver

/-! ## The drivers' pixel operations -/

/-- C1: in the 16-bit SSD1351 driver, for every well-formed buffer, every configured
foreground and background colour and every pixel `(x, y)` with `x < width` and
`y < height`: after `DrawPixel(x, y, true)` slot `y * width + x` holds the foreground
colour, after `DrawPixel(x, y, false)` it holds the background colour; the colours and the
buffer size are unchanged; the slot of every other valid pixel keeps its value; and writes
to two different pixels commute. -/
theorem SSD1351_DrawPixel_sets_only_its_slot {width height : Nat}
    (s : SSD1351Driver width height) (hwf : s.WF)
    (x y : Nat) (hx : x < width) (hy : y < height) :
    (s.DrawPixel x y true).buffer_[y * width + x]? = some s.fg_color_ ∧
    (s.DrawPixel x y false).buffer_[y * width + x]? = some s.bg_color_ ∧
    (∀ b : Bool, (s.DrawPixel x y b).fg_color_ = s.fg_color_ ∧
      (s.DrawPixel x y b).bg_color_ = s.bg_color_ ∧ (s.DrawPixel x y b).WF) ∧
    (∀ (b : Bool) (x' y' : Nat), x' < width → y' < height → (x', y') ≠ (x, y) →
      (s.DrawPixel x y b).buffer_[y' * width + x']? = s.buffer_[y' * width + x']?) ∧
    (∀ (b b' : Bool) (x' y' : Nat), x' < width → y' < height → (x', y') ≠ (x, y) →
      (s.DrawPixel x y b).DrawPixel x' y' b' = (s.DrawPixel x' y' b').DrawPixel x y b) := by
  have hlt : y * width + x < s.buffer_.length := by
    rw [hwf]; exact rowMajor_lt hx hy
  refine ⟨?_, ?_, ?_, ?_, ?_⟩
  · rw [SSD1351Driver.DrawPixel_of_valid_1351 s hx hy]
    simp [hlt]
  · rw [SSD1351Driver.DrawPixel_of_valid_1351 s hx hy]
    simp [hlt]
  · intro b
    rw [SSD1351Driver.DrawPixel_of_valid_1351 s hx hy]
    refine ⟨rfl, rfl, ?_⟩
    simp only [SSD1351Driver.WF, List.length_set]
    exact hwf
  · intro b x' y' hx' hy' hne
    rw [SSD1351Driver.DrawPixel_of_valid_1351 s hx hy]
    have hidx : y * width + x ≠ y' * width + x' := by
      intro h
      obtain ⟨h1, h2⟩ := rowMajor_inj hx hx' h
      exact hne (by rw [h1, h2])
    simp [List.getElem?_set_ne hidx]
  · intro b b' x' y' hx' hy' hne
    have hidx : y * width + x ≠ y' * width + x' := by
      intro h
      obtain ⟨h1, h2⟩ := rowMajor_inj hx hx' h
      exact hne (by rw [h1, h2])
    rw [SSD1351Driver.DrawPixel_of_valid_1351 s hx hy,
      SSD1351Driver.DrawPixel_of_valid_1351 s hx' hy',
      SSD1351Driver.DrawPixel_of_valid_1351 _ hx' hy',
      SSD1351Driver.DrawPixel_of_valid_1351 _ hx hy]
    simp only [SSD1351Driver.mk.injEq, and_true, true_and]
    exact List.set_comm _ _ _ hidx

/-- C1 at a 128x128 panel: drawing pixel (5, 7) puts the foreground colour in slot
`7 * 128 + 5` and the background colour there when drawn off. -/
theorem SSD1351_DrawPixel_sets_only_its_slot_witness :
    (SSD1351Driver.uniform 128 128 0x1234 0xf800 0x001f).WF ∧ 5 < 128 ∧ 7 < 128 ∧
    ((SSD1351Driver.uniform 128 128 0x1234 0xf800 0x001f).DrawPixel 5 7 true).buffer_[
        7 * 128 + 5]? = some (SSD1351Driver.uniform 128 128 0x1234 0xf800 0x001f).fg_color_ ∧
    ((SSD1351Driver.uniform 128 128 0x1234 0xf800 0x001f).DrawPixel 5 7 false).buffer_[
        7 * 128 + 5]? = some (SSD1351Driver.uniform 128 128 0x1234 0xf800 0x001f).bg_color_ :=
  ⟨SSD1351Driver.uniform_WF_1351 _ _ _ _ _, by decide, by decide,
    (SSD1351_DrawPixel_sets_only_its_slot _ (SSD1351Driver.uniform_WF_1351 _ _ _ _ _) 5 7
      (by decide) (by decide)).1,
    (SSD1351_DrawPixel_sets_only_its_slot _ (SSD1351Driver.uniform_WF_1351 _ _ _ _ _) 5 7
      (by decide) (by decide)).2.1⟩

/-- C2: in both drivers, for every state and every `(x, y)` with `x >= width` or
`y >= height`, `DrawPixel(x, y, on)` returns the state it was given, for either value of
`on`: framebuffer, colours and transport are untouched, and the call has no other outcome
(no error value exists). -/
theorem DrawPixel_out_of_range_is_noop {width height : Nat}
    (s1 : SSD1327Driver width height) (s2 : SSD1351Driver width height)
    (x y : Nat) (b : Bool) (h : x ≥ width ∨ y ≥ height) :
    s1.DrawPixel x y b = s1 ∧ s2.DrawPixel x y b = s2 := by
  constructor
  · simp [SSD1327Driver.DrawPixel, h]
  · simp [SSD1351Driver.DrawPixel, h]

/-- C2 at 128x128 panels: a pixel in column 128 is ignored by both drivers. -/
theorem DrawPixel_out_of_range_is_noop_witness :
    (128 ≥ 128 ∨ 3 ≥ 128) ∧
    (SSD1327Driver.uniform 128 128 0xff 0x0f).DrawPixel 128 3 false
      = SSD1327Driver.uniform 128 128 0xff 0x0f ∧
    (SSD1351Driver.uniform 128 128 0 0xffff 0).DrawPixel 128 3 true
      = SSD1351Driver.uniform 128 128 0 0xffff 0 :=
  ⟨by decide,
    (DrawPixel_out_of_range_is_noop (SSD1327Driver.uniform 128 128 0xff 0x0f)
      (SSD1351Driver.uniform 128 128 0 0xffff 0) 128 3 false (by decide)).1,
    (DrawPixel_out_of_range_is_noop (SSD1327Driver.uniform 128 128 0xff 0x0f)
      (SSD1351Driver.uniform 128 128 0 0xffff 0) 128 3 true (by decide)).2⟩

/-- C3: evaluation of the 4-bit SSD1327 `DrawPixel` where it departs from the claim.
With colour 1 set by `Set_Color` and a byte that holds 0xff, `DrawPixel(0, 0, true)`
leaves the byte at 0xff: neither nibble reads back the foreground tone 1. With colour 5
and a cleared buffer, `DrawPixel(0, 0, true)` and `DrawPixel(0, 1, true)` both leave byte 0
at 0x05, so the pixel held in the high nibble reads 0, not 5. -/
theorem SSD1327_DrawPixel_on_keeps_old_bits :
    (SSD1327Driver.Set_Color (SSD1327Driver.uniform 128 128 0xff 0) 0x01).color_ = 0x01 ∧
    ((SSD1327Driver.Set_Color (SSD1327Driver.uniform 128 128 0xff 0) 0x01).DrawPixel
        0 0 true).buffer_[0]? = some 0xff ∧
    lowNibble 0xff ≠ 0x01 ∧ highNibble 0xff ≠ 0x01 ∧
    ((SSD1327Driver.Set_Color (SSD1327Driver.uniform 128 128 0x00 0) 0x05).DrawPixel
        0 0 true).buffer_[0]? = some 0x05 ∧
    ((SSD1327Driver.Set_Color (SSD1327Driver.uniform 128 128 0x00 0) 0x05).DrawPixel
        0 1 true).buffer_[0]? = some 0x05 ∧
    highNibble 0x05 ≠ 0x05 := by
  have h1 : SSD1327Driver.Set_Color (SSD1327Driver.uniform 128 128 0xff 0) 0x01
      = SSD1327Driver.uniform 128 128 0xff 0x01 := rfl
  have h2 : SSD1327Driver.Set_Color (SSD1327Driver.uniform 128 128 0x00 0) 0x05
      = SSD1327Driver.uniform 128 128 0x00 0x05 := rfl
  rw [h1, h2]
  refine ⟨rfl, ?_, by decide, by decide, ?_, ?_, by decide⟩
  · rw [SSD1327Driver.uniform_DrawPixel_byte0_1327 _ _ _ (by decide)]; rfl
  · rw [SSD1327Driver.uniform_DrawPixel_byte0_1327 _ _ _ (by decide)]; rfl
  · rw [SSD1327Driver.uniform_DrawPixel_byte0_1327 _ _ _ (by decide)]; rfl

/-- C4: evaluation of the 4-bit SSD1327 `DrawPixel` where it departs from the claim.
After `Fill(true)` byte 0 holds 0xff, both nibbles at tone 15. `DrawPixel(0, 1, false)`
and `DrawPixel(0, 0, false)` each leave byte 0 at 0x00, so drawing either pixel of the
pair clears the other one too. In general the driver does not tell the two pixels of a
row pair apart: for even `y` with `y + 1 < height`, `DrawPixel(x, y, on)` and
`DrawPixel(x, y + 1, on)` are the same operation. -/
theorem SSD1327_DrawPixel_off_clears_neighbour :
    ((SSD1327Driver.uniform 128 128 0x00 0x0f).Fill true).buffer_[0]? = some 0xff ∧
    lowNibble 0xff = 0x0f ∧ highNibble 0xff = 0x0f ∧
    (((SSD1327Driver.uniform 128 128 0x00 0x0f).Fill true).DrawPixel 0 1 false).buffer_[0]?
      = some 0x00 ∧
    (((SSD1327Driver.uniform 128 128 0x00 0x0f).Fill true).DrawPixel 0 0 false).buffer_[0]?
      = some 0x00 ∧
    lowNibble 0x00 = 0 ∧ highNibble 0x00 = 0 ∧
    (∀ (width height : Nat) (s : SSD1327Driver width height) (x y : Nat) (b : Bool),
      y % 2 = 0 → y + 1 < height → s.DrawPixel x y b = s.DrawPixel x (y + 1) b) := by
  have hf : (SSD1327Driver.uniform 128 128 0x00 0x0f).Fill true
      = SSD1327Driver.uniform 128 128 0xff 0x0f := by
    rw [SSD1327Driver.Fill_eq_1327 _ (SSD1327Driver.uniform_WF_1327 _ _ _ _)]; rfl
  rw [hf]
  refine ⟨?_, by decide, by decide, ?_, ?_, by decide, by decide, ?_⟩
  · exact List.getElem?_replicate_of_lt (by decide)
  · rw [SSD1327Driver.uniform_DrawPixel_byte0_1327 _ _ _ (by decide)]; rfl
  · rw [SSD1327Driver.uniform_DrawPixel_byte0_1327 _ _ _ (by decide)]; rfl
  · intro width height s x y b hy hlt
    have e : (y + 1) / 2 = y / 2 := by omega
    have g : (x ≥ width ∨ y + 1 ≥ height) ↔ (x ≥ width ∨ y ≥ height) := by omega
    simp only [SSD1327Driver.DrawPixel, e, g]

/-- C5: in both drivers, on every well-formed buffer, `Fill(on)` leaves every unit at the
fill value whatever the buffer held (0xff / 0x00 in the 4-bit driver, `fg_color_` /
`bg_color_` in the 16-bit driver); `Fill(true)` followed by `Fill(false)` leaves every unit
at the background value (0x00, resp. `bg_color_`); and `Fill(true)` applied twice yields
the same state as `Fill(true)` applied once. -/
theorem Fill_overwrites_every_unit {width height : Nat}
    (s1 : SSD1327Driver width height) (s2 : SSD1351Driver width height)
    (h1 : s1.WF) (h2 : s2.WF) :
    (∀ b : Bool, (s1.Fill b).buffer_ =
      List.replicate (width * height) (if b then 0xff else 0x00)) ∧
    (∀ b : Bool, (s2.Fill b).buffer_ =
      List.replicate (width * height) (if b then s2.fg_color_ else s2.bg_color_)) ∧
    ((s1.Fill true).Fill false).buffer_ = List.replicate (width * height) 0x00 ∧
    ((s2.Fill true).Fill false).buffer_ = List.replicate (width * height) s2.bg_color_ ∧
    (s1.Fill true).Fill true = s1.Fill true ∧
    (s2.Fill true).Fill true = s2.Fill true := by
  have w1 : ∀ b : Bool, (s1.Fill b).WF := by
    intro b; rw [SSD1327Driver.Fill_eq_1327 s1 h1]; simp [SSD1327Driver.WF]
  have w2 : ∀ b : Bool, (s2.Fill b).WF := by
    intro b; rw [SSD1351Driver.Fill_eq_1351 s2 h2]; simp [SSD1351Driver.WF]
  refine ⟨?_, ?_, ?_, ?_, ?_, ?_⟩
  · intro b; rw [SSD1327Driver.Fill_eq_1327 s1 h1]
  · intro b; rw [SSD1351Driver.Fill_eq_1351 s2 h2]
  · rw [SSD1327Driver.Fill_eq_1327 _ (w1 true)]; rfl
  · rw [SSD1351Driver.Fill_eq_1351 _ (w2 true), SSD1351Driver.Fill_eq_1351 s2 h2]; rfl
  · rw [SSD1327Driver.Fill_eq_1327 _ (w1 true), SSD1327Driver.Fill_eq_1327 s1 h1]
  · rw [SSD1351Driver.Fill_eq_1351 _ (w2 true), SSD1351Driver.Fill_eq_1351 s2 h2]

/-- C5 at 128x128 panels with content: `Fill(true)` then `Fill(false)` leaves the
background value everywhere, and a second `Fill(true)` changes nothing. -/
theorem Fill_overwrites_every_unit_witness :
    (SSD1327Driver.uniform 128 128 0x5a 0x0f).WF ∧
    (SSD1351Driver.uniform 128 128 0x1234 0xf800 0x001f).WF ∧
    (((SSD1327Driver.uniform 128 128 0x5a 0x0f).Fill true).Fill false).buffer_
      = List.replicate (128 * 128) 0x00 ∧
    (((SSD1351Driver.uniform 128 128 0x1234 0xf800 0x001f).Fill true).Fill false).buffer_
      = List.replicate (128 * 128)
          (SSD1351Driver.uniform 128 128 0x1234 0xf800 0x001f).bg_color_ ∧
    ((SSD1327Driver.uniform 128 128 0x5a 0x0f).Fill true).Fill true
      = (SSD1327Driver.uniform 128 128 0x5a 0x0f).Fill true :=
  ⟨SSD1327Driver.uniform_WF_1327 _ _ _ _, SSD1351Driver.uniform_WF_1351 _ _ _ _ _,
    (Fill_overwrites_every_unit (SSD1327Driver.uniform 128 128 0x5a 0x0f)
      (SSD1351Driver.uniform 128 128 0x1234 0xf800 0x001f)
      (SSD1327Driver.uniform_WF_1327 _ _ _ _) (SSD1351Driver.uniform_WF_1351 _ _ _ _ _)).2.2.1,
    (Fill_overwrites_every_unit (SSD1327Driver.uniform 128 128 0x5a 0x0f)
      (SSD1351Driver.uniform 128 128 0x1234 0xf800 0x001f)
      (SSD1327Driver.uniform_WF_1327 _ _ _ _) (SSD1351Driver.uniform_WF_1351 _ _ _ _ _)).2.2.2.1,
    (Fill_overwrites_every_unit (SSD1327Driver.uniform 128 128 0x5a 0x0f)
      (SSD1351Driver.uniform 128 128 0x1234 0xf800 0x001f)
      (SSD1327Driver.uniform_WF_1327 _ _ _ _)
      (SSD1351Driver.uniform_WF_1351 _ _ _ _ _)).2.2.2.2.1⟩

/-- C6: evaluation of the 4-bit SSD1327 `Init` where it departs from the claim. For
every geometry and state, `SSD1327Driver::Init` returns with `buffer_` (and `color_`)
exactly as it found them; on a 128x128 panel whose bytes all hold 0xff they still all
hold 0xff when `Init` returns, not the background tone 0x00. -/
theorem SSD1327_Init_keeps_buffer :
    (∀ (width height : Nat) (s : SSD1327Driver width height),
      (SSD1327Driver.Init s).buffer_ = s.buffer_ ∧ (SSD1327Driver.Init s).color_ = s.color_) ∧
    (SSD1327Driver.Init (SSD1327Driver.uniform 128 128 0xff 0x0f)).buffer_
      = List.replicate (128 * 128) 0xff := by
  refine ⟨fun _ _ s => ?_, ?_⟩
  · unfold SSD1327Driver.Init
    exact ⟨rfl, rfl⟩
  · unfold SSD1327Driver.Init SSD1327Driver.uniform
    rfl

/-- C7: for panels of 1 to 256 pixels in each direction (the range of the one-byte
command arguments) and every well-formed driver state, `Update` appends to the transport,
in order, the commands 0x15, 0x00, `width - 1`, 0x75, 0x00, `height - 1` and then the
frame. The 16-bit driver sends one data transfer, the memory image of the whole buffer:
`2 * width * height` bytes in which slot `i` is bytes `2 * i` and `2 * i + 1`. The 4-bit
driver sends `height` data transfers, transfer `line` being the `width / 2` bytes at
offset `line * (width / 2)`; each has `width / 2` bytes and together they are the first
`height * (width / 2)` bytes of the buffer in order. `Update` leaves the buffer and the
configured colours unchanged. -/
theorem Update_streams_frame_read_only {width height : Nat}
    (s1 : SSD1351Driver width height) (s2 : SSD1327Driver width height)
    (h1 : s1.WF) (h2 : s2.WF)
    (hw0 : 0 < width) (hw : width ≤ 256) (hh0 : 0 < height) (hh : height ≤ 256) :
    ((SSD1351Driver.Update s1).transport_ = s1.transport_ ++
        [TransportEvent.command 0x15, TransportEvent.command 0x00,
         TransportEvent.command (width - 1), TransportEvent.command 0x75,
         TransportEvent.command 0x00, TransportEvent.command (height - 1),
         TransportEvent.data (bytesLE s1.buffer_)] ∧
      (bytesLE s1.buffer_).length = 2 * (width * height) ∧
      (∀ i v : Nat, s1.buffer_[i]? = some v →
        (bytesLE s1.buffer_)[2 * i]? = some (v % 256) ∧
        (bytesLE s1.buffer_)[2 * i + 1]? = some (v / 256 % 256)) ∧
      (SSD1351Driver.Update s1).buffer_ = s1.buffer_ ∧
      (SSD1351Driver.Update s1).fg_color_ = s1.fg_color_ ∧
      (SSD1351Driver.Update s1).bg_color_ = s1.bg_color_) ∧
    ((SSD1327Driver.Update s2).transport_ = s2.transport_ ++
        [TransportEvent.command 0x15, TransportEvent.command 0x00,
         TransportEvent.command (width - 1), TransportEvent.command 0x75,
         TransportEvent.command 0x00, TransportEvent.command (height - 1)] ++
        (List.range height).map
          (fun line => TransportEvent.data (slice s2.buffer_ (line * (width / 2)) (width / 2))) ∧
      ((List.range height).map
          (fun line => TransportEvent.data
            (slice s2.buffer_ (line * (width / 2)) (width / 2)))).length = height ∧
      (∀ line : Nat, line < height →
        (slice s2.buffer_ (line * (width / 2)) (width / 2)).length = width / 2) ∧
      ((List.range height).map
          (fun line => slice s2.buffer_ (line * (width / 2)) (width / 2))).flatten
        = s2.buffer_.take (height * (width / 2)) ∧
      (SSD1327Driver.Update s2).buffer_ = s2.buffer_ ∧
      (SSD1327Driver.Update s2).color_ = s2.color_) := by
  have e15 : u8 0x15 = 0x15 := rfl
  have e0 : u8 0x00 = 0x00 := rfl
  have e75 : u8 0x75 = 0x75 := rfl
  refine ⟨⟨?_, ?_, ?_, rfl, rfl, rfl⟩, ⟨?_, ?_, ?_, ?_, rfl, rfl⟩⟩
  · have hl : (bytesLE s1.buffer_).length ≤ 2 * (width * height) := by
      rw [bytesLE_length, h1]
    simp only [SSD1351Driver.Update, SendCommand, SendData, slice, List.drop_zero,
      List.take_of_length_le hl, u8_sub32_one hw0 hw, u8_sub32_one hh0 hh, e15, e0, e75,
      List.append_assoc, List.singleton_append, List.cons_append, List.nil_append]
  · rw [bytesLE_length, h1]
  · exact fun i v h => bytesLE_getElem? _ i v h
  · simp only [SSD1327Driver.Update, rowLoop_eq, SendCommand, u8_sub32_one hw0 hw,
      u8_sub32_one hh0 hh, e15, e0, e75, List.append_assoc, List.singleton_append,
      List.cons_append, List.nil_append]
  · simp
  · intro line hl
    apply slice_length
    rw [h2]
    calc line * (width / 2) + width / 2 = (line + 1) * (width / 2) := by ring
      _ ≤ height * (width / 2) := Nat.mul_le_mul_right _ hl
      _ ≤ height * width := Nat.mul_le_mul_left _ (Nat.div_le_self _ _)
      _ = width * height := Nat.mul_comm _ _
  · exact slices_flatten _ _ _

/-- C7 at 128x128 panels: the 16-bit driver sends the six window commands and one
transfer of the whole buffer. -/
theorem Update_streams_frame_read_only_witness :
    (SSD1351Driver.uniform 128 128 0x1234 0xf800 0x001f).WF ∧
    (SSD1327Driver.uniform 128 128 0x5a 0x0f).WF ∧
    0 < 128 ∧ 128 ≤ 256 ∧
    (SSD1351Driver.Update (SSD1351Driver.uniform 128 128 0x1234 0xf800 0x001f)).transport_
      = (SSD1351Driver.uniform 128 128 0x1234 0xf800 0x001f).transport_ ++
        [TransportEvent.command 0x15, TransportEvent.command 0x00,
         TransportEvent.command (128 - 1), TransportEvent.command 0x75,
         TransportEvent.command 0x00, TransportEvent.command (128 - 1),
         TransportEvent.data
          (bytesLE (SSD1351Driver.uniform 128 128 0x1234 0xf800 0x001f).buffer_)] :=
  ⟨SSD1351Driver.uniform_WF_1351 _ _ _ _ _, SSD1327Driver.uniform_WF_1327 _ _ _ _,
    by decide, by decide,
    (Update_streams_frame_read_only _ (SSD1327Driver.uniform 128 128 0x5a 0x0f)
      (SSD1351Driver.uniform_WF_1351 _ _ _ _ _) (SSD1327Driver.uniform_WF_1327 _ _ _ _)
      (by decide) (by decide) (by decide) (by decide)).1.1⟩


/-! ## Single-precision rounding -/

/-- An integer rounds to itself. -/
theorem roundHalfEven_intCast (z : ℤ) : roundHalfEven (z : ℚ) = z := by
  unfold roundHalfEven
  simp

/-- Rounding to an integer does not go below an integer lower bound. -/
theorem le_roundHalfEven {z : ℤ} {n : ℚ} (h : (z : ℚ) ≤ n) : z ≤ roundHalfEven n := by
  have hf : z ≤ ⌊n⌋ := Int.le_floor.mpr h
  unfold roundHalfEven
  split_ifs <;> omega

/-- Rounding to an integer does not go above an integer upper bound. -/
theorem roundHalfEven_le {z : ℤ} {n : ℚ} (h : n ≤ (z : ℚ)) : roundHalfEven n ≤ z := by
  have hfl : (⌊n⌋ : ℚ) ≤ n := Int.floor_le n
  have hf : ⌊n⌋ ≤ z := by
    have : (⌊n⌋ : ℚ) ≤ (z : ℚ) := le_trans hfl h
    exact_mod_cast this
  by_cases hr : n - (⌊n⌋ : ℚ) < 1 / 2
  · unfold roundHalfEven
    rw [if_pos hr]; exact hf
  · have hlt : ⌊n⌋ < z := by
      rcases lt_or_eq_of_le hf with h1 | h1
      · exact h1
      · exfalso
        have : n = (⌊n⌋ : ℚ) := le_antisymm (by rw [h1]; exact h) hfl
        apply hr
        rw [← this]; norm_num
    unfold roundHalfEven
    split_ifs <;> omega

/-- The unit in the last place of a value below `2 ^ (24 + k)` is at most `2 ^ k`. -/
theorem ulpExp_le {x : ℚ} {k : ℤ} (hx : 0 < x) (hk : -149 ≤ k)
    (h : x < (2 : ℚ) ^ (24 + k)) : ulpExp x ≤ k := by
  have hlog : Int.log 2 x < 24 + k := by
    rw [← Int.lt_zpow_iff_log_lt (by decide) hx]
    simpa using h
  unfold ulpExp
  have := max_le (a := Int.log 2 x) (b := -126) (c := 23 + k) (by omega) (by omega)
  omega

/-- A multiple of `2 ^ k` is an integer multiple of any smaller power of two. -/
theorem mul_zpow_eq (m : ℤ) {k e : ℤ} (h : e ≤ k) :
    (m : ℚ) * 2 ^ k = ((m * 2 ^ (k - e).toNat : ℤ) : ℚ) * 2 ^ e := by
  have h2 : (2 : ℚ) ≠ 0 := by norm_num
  have hk : k = (((k - e).toNat : ℕ) : ℤ) + e := by
    have := Int.toNat_of_nonneg (show 0 ≤ k - e by omega)
    omega
  conv_lhs => rw [hk]
  rw [zpow_add₀ h2, zpow_natCast]
  push_cast
  ring

/-- Rounding leaves an integer multiple of the unit in the last place as it is. -/
theorem roundF32_of_mul_ulp {x : ℚ} (hx : 0 < x) (z : ℤ) (h : x = (z : ℚ) * 2 ^ ulpExp x) :
    roundF32 x = x := by
  have hp : (0 : ℚ) < 2 ^ ulpExp x := zpow_pos (by norm_num) _
  have hq : x / 2 ^ ulpExp x = (z : ℚ) := by
    rw [div_eq_iff (ne_of_gt hp)]; exact h
  unfold roundF32
  rw [if_neg (ne_of_gt hx), if_pos hx, hq, roundHalfEven_intCast]
  exact h.symm

/-- A value with a significand below `2 ^ 24` and an exponent of at least `-149` is a
binary32 value: rounding returns it. -/
theorem roundF32_exact (m : ℤ) (k : ℤ) (hm0 : 0 ≤ m) (hm : m < 16777216) (hk : -149 ≤ k) :
    roundF32 ((m : ℚ) * 2 ^ k) = (m : ℚ) * 2 ^ k := by
  rcases eq_or_lt_of_le hm0 with h0 | hpos
  · rw [← h0]; simp [roundF32]
  have hp : (0 : ℚ) < 2 ^ k := zpow_pos (by norm_num) _
  have hx : (0 : ℚ) < (m : ℚ) * 2 ^ k := mul_pos (by exact_mod_cast hpos) hp
  have hlt : (m : ℚ) * 2 ^ k < (2 : ℚ) ^ (24 + k) := by
    rw [zpow_add₀ (by norm_num : (2 : ℚ) ≠ 0)]
    apply mul_lt_mul_of_pos_right _ hp
    have : (m : ℚ) < 16777216 := by exact_mod_cast hm
    calc (m : ℚ) < 16777216 := this
      _ = 2 ^ (24 : ℤ) := by norm_num
  have he := ulpExp_le hx hk hlt
  exact roundF32_of_mul_ulp hx _ (mul_zpow_eq m he)

/-- Below `2 ^ 24` rounding does not cross an integer: from below. -/
theorem le_roundF32_of_intCast_le {x : ℚ} (N : ℤ) (hx : 0 < x) (hlt : x < 16777216)
    (h : (N : ℚ) ≤ x) : (N : ℚ) ≤ roundF32 x := by
  have he : ulpExp x ≤ 0 := ulpExp_le hx (by decide) (by norm_num; exact hlt)
  have hp : (0 : ℚ) < 2 ^ ulpExp x := zpow_pos (by norm_num) _
  have hN := mul_zpow_eq N he
  simp only [zpow_zero, mul_one] at hN
  unfold roundF32
  rw [if_neg (ne_of_gt hx), if_pos hx, hN]
  apply mul_le_mul_of_nonneg_right _ (le_of_lt hp)
  have : ((N * 2 ^ (0 - ulpExp x).toNat : ℤ) : ℚ) ≤ x / 2 ^ ulpExp x := by
    rw [le_div_iff₀ hp, ← hN]; exact h
  exact_mod_cast le_roundHalfEven this

/-- Below `2 ^ 24` rounding does not cross an integer: from above. -/
theorem roundF32_le_of_le_intCast {x : ℚ} (N : ℤ) (hx : 0 < x) (hlt : x < 16777216)
    (h : x ≤ (N : ℚ)) : roundF32 x ≤ (N : ℚ) := by
  have he : ulpExp x ≤ 0 := ulpExp_le hx (by decide) (by norm_num; exact hlt)
  have hp : (0 : ℚ) < 2 ^ ulpExp x := zpow_pos (by norm_num) _
  have hN := mul_zpow_eq N he
  simp only [zpow_zero, mul_one] at hN
  unfold roundF32
  rw [if_neg (ne_of_gt hx), if_pos hx]
  conv_rhs => rw [hN]
  apply mul_le_mul_of_nonneg_right _ (le_of_lt hp)
  have : x / 2 ^ ulpExp x ≤ ((N * 2 ^ (0 - ulpExp x).toNat : ℤ) : ℚ) := by
    rw [div_le_iff₀ hp, ← hN]; exact h
  exact_mod_cast roundHalfEven_le this


/-- A display height below `2 ^ 24` converts to `float` exactly. -/
theorem f32ofSizeT_exact (H : Nat) (hH : H < 16777216) : f32ofSizeT H = (H : ℚ) := by
  have h := roundF32_exact (H : ℤ) 0 (by omega) (by omega) (by decide)
  simpa [f32ofSizeT] using h

/-- The significand of a non-negative binary32 value is non-negative and below `2 ^ 24`. -/
theorem F32.m_range (v : F32) (h0 : 0 ≤ v.toRat) : 0 ≤ v.m ∧ v.m < 16777216 := by
  have hp : (0 : ℚ) < 2 ^ v.e := zpow_pos (by norm_num) _
  have hm : (0 : ℚ) ≤ (v.m : ℚ) := by
    by_contra hneg
    have : (v.m : ℚ) * 2 ^ v.e < 0 := mul_neg_of_neg_of_pos (lt_of_not_ge hneg) hp
    exact absurd h0 (not_le.mpr this)
  have h1 : 0 ≤ v.m := by exact_mod_cast hm
  have h2 := v.m_lt
  omega

/-- The binary32 product of a non-negative control value and a power of two below
`2 ^ 24` is exact. -/
theorem f32mul_pow2 (v : F32) (n : Nat) (h0 : 0 ≤ v.toRat) (hn : 2 ^ n < 16777216) :
    f32mul v.toRat (f32ofSizeT (2 ^ n)) = v.toRat * 2 ^ n := by
  obtain ⟨hm0, hm⟩ := F32.m_range v h0
  have he := v.e_ge
  rw [f32ofSizeT_exact _ hn]
  have e : v.toRat * ((2 ^ n : ℕ) : ℚ) = (v.m : ℚ) * 2 ^ (v.e + (n : ℤ)) := by
    unfold F32.toRat
    rw [zpow_add₀ (by norm_num : (2 : ℚ) ≠ 0), zpow_natCast]
    push_cast
    ring
  unfold f32mul
  rw [e, roundF32_exact v.m _ hm0 hm (by omega)]
  rw [zpow_add₀ (by norm_num : (2 : ℚ) ≠ 0), zpow_natCast]
  unfold F32.toRat
  ring

/-- The bar height `dest` on a display of height `H < 2 ^ 24` for a value `v` in
`[0, 1]`: the truncated binary32 product lies between the floor and the ceiling of the
exact product and does not exceed `H`. -/
theorem dest_bounds (v : ℚ) (H : Nat) (hH : H < 16777216) (h0 : 0 ≤ v) (h1 : v ≤ 1) :
    Nat.floor (v * (H : ℚ)) ≤ toSizeT (f32mul v (f32ofSizeT H)) ∧
    toSizeT (f32mul v (f32ofSizeT H)) ≤ Nat.ceil (v * (H : ℚ)) ∧
    toSizeT (f32mul v (f32ofSizeT H)) ≤ H := by
  have hH0 : (0 : ℚ) ≤ (H : ℚ) := Nat.cast_nonneg H
  have hx0 : 0 ≤ v * (H : ℚ) := mul_nonneg h0 hH0
  have hxH : v * (H : ℚ) ≤ (H : ℚ) := by nlinarith
  have hHq : (H : ℚ) < 16777216 := by exact_mod_cast hH
  rw [f32ofSizeT_exact H hH]
  unfold f32mul
  rcases eq_or_lt_of_le hx0 with hz | hpos
  · rw [← hz]
    simp [roundF32, toSizeT, u32]
  · have hlt : v * (H : ℚ) < 16777216 := lt_of_le_of_lt hxH hHq
    have lo := le_roundF32_of_intCast_le ((Nat.floor (v * (H : ℚ)) : ℕ) : ℤ) hpos hlt
      (by exact_mod_cast Nat.floor_le hx0)
    have hi := roundF32_le_of_le_intCast ((Nat.ceil (v * (H : ℚ)) : ℕ) : ℤ) hpos hlt
      (by exact_mod_cast Nat.le_ceil (v * (H : ℚ)))
    have hiH := roundF32_le_of_le_intCast ((H : ℕ) : ℤ) hpos hlt (by exact_mod_cast hxH)
    have f1 : Nat.floor (v * (H : ℚ)) ≤ Nat.floor (roundF32 (v * (H : ℚ))) :=
      Nat.le_floor (by exact_mod_cast lo)
    have f2 : Nat.floor (roundF32 (v * (H : ℚ))) ≤ Nat.ceil (v * (H : ℚ)) :=
      Nat.floor_le_of_le (by exact_mod_cast hi)
    have f3 : Nat.floor (roundF32 (v * (H : ℚ))) ≤ H :=
      Nat.floor_le_of_le (by exact_mod_cast hiH)
    have hu : toSizeT (roundF32 (v * (H : ℚ))) = Nat.floor (roundF32 (v * (H : ℚ))) :=
      u32_of_lt (by omega)
    rw [hu]
    exact ⟨f1, f2, f3⟩

/-- The product `0.7f * 10` rounds up to 7 in binary32 although the exact product of the
two values is below 7: the bar has 7 rows where the floor of the exact product is 6. -/
theorem sevenTenths_times_ten :
    toSizeT (f32mul sevenTenths.toRat (f32ofSizeT 10)) = 7 ∧
    Nat.floor (sevenTenths.toRat * ((10 : ℕ) : ℚ)) = 6 := by
  have hv : sevenTenths.toRat = 11744051 / 16777216 := by
    simp [sevenTenths, F32.ofParts, F32.toRat]
    norm_num
  have hlog : Int.log 2 ((58720255 : ℚ) / 8388608) = 2 := by
    apply le_antisymm
    · have : Int.log 2 ((58720255 : ℚ) / 8388608) < 3 := by
        rw [← Int.lt_zpow_iff_log_lt (by decide) (by norm_num)]
        norm_num
      omega
    · rw [← Int.zpow_le_iff_le_log (by decide) (by norm_num)]
      norm_num
  have hfloor : ⌊((58720255 : ℚ) / 4)⌋ = 14680063 := by
    rw [Int.floor_eq_iff]; norm_num
  constructor
  · rw [f32ofSizeT_exact 10 (by decide), hv]
    have hx : (11744051 / 16777216 : ℚ) * ((10 : ℕ) : ℚ) = 58720255 / 8388608 := by norm_num
    unfold f32mul
    rw [hx]
    have hr : roundF32 ((58720255 : ℚ) / 8388608) = 7 := by
      have hu : ulpExp ((58720255 : ℚ) / 8388608) = -21 := by
        unfold ulpExp; rw [hlog]; rfl
      have hq : (58720255 : ℚ) / 8388608 / 2 ^ (-21 : ℤ) = 58720255 / 4 := by
        rw [zpow_neg]; norm_num
      have hrhe : roundHalfEven ((58720255 : ℚ) / 4) = 14680064 := by
        unfold roundHalfEven
        rw [hfloor]
        norm_num
      unfold roundF32
      rw [if_neg (by norm_num), if_pos (by norm_num), hu, hq, hrhe, zpow_neg]
      norm_num
    rw [hr]
    simp [toSizeT, u32]
  · rw [hv, Nat.floor_eq_iff (by norm_num)]
    norm_num



/-- The bar height for a value `m / 2 ^ a` whose product with `H` is exact in binary32. -/
theorem dest_of_dyadic (v : ℚ) (m a H : Nat) (hv : v = (m : ℚ) / 2 ^ a)
    (hH : H < 16777216) (hmH : m * H < 16777216) (ha : a ≤ 149) :
    toSizeT (f32mul v (f32ofSizeT H)) = m * H / 2 ^ a := by
  have e : v * (H : ℚ) = (((m * H : ℕ) : ℤ) : ℚ) * 2 ^ (-(a : ℤ)) := by
    rw [hv, zpow_neg, zpow_natCast]
    push_cast
    field_simp
  have hfl : Nat.floor ((((m * H : ℕ) : ℤ) : ℚ) * 2 ^ (-(a : ℤ))) = m * H / 2 ^ a := by
    have : (((m * H : ℕ) : ℤ) : ℚ) * 2 ^ (-(a : ℤ))
        = ((m * H : ℕ) : ℚ) / ((2 ^ a : ℕ) : ℚ) := by
      rw [zpow_neg, zpow_natCast]
      push_cast
      field_simp
    rw [this, Nat.floor_div_eq_div]
  have hle : m * H / 2 ^ a ≤ m * H := Nat.div_le_self _ _
  rw [f32ofSizeT_exact H hH]
  unfold f32mul
  rw [e, roundF32_exact _ _ (by omega) (by omega) (by omega)]
  unfold toSizeT
  rw [hfl]
  exact u32_of_lt (by omega)

/-- On a display whose height is a power of two the bar height is the floor of the
exact product. -/
theorem dest_pow2 (v : F32) (n : Nat) (h0 : 0 ≤ v.toRat) (h1 : v.toRat ≤ 1)
    (hn : 2 ^ n < 16777216) :
    toSizeT (f32mul v.toRat (f32ofSizeT (2 ^ n)))
      = Nat.floor (v.toRat * ((2 ^ n : ℕ) : ℚ)) := by
  have hb := (dest_bounds v.toRat (2 ^ n) hn h0 h1).2.2
  rw [f32mul_pow2 v n h0 hn] at hb ⊢
  unfold toSizeT at hb ⊢
  push_cast
  have hlt : Nat.floor (v.toRat * (2 : ℚ) ^ n) < 4294967296 := by
    have h2 : Nat.floor (v.toRat * (2 : ℚ) ^ n) ≤ 2 ^ n := by
      apply Nat.floor_le_of_le
      have : (0 : ℚ) ≤ (2 : ℚ) ^ n := by positivity
      push_cast
      nlinarith
    omega
  exact u32_of_lt hlt

/-! ## The board's display refresh -/

theorem callLog_row (d : CallLog) (x0 y : Nat) (b : Bool) (n : Nat) :
    forUp n (fun k d => callLogOps.DrawPixel d (u32 (x0 + k)) y b) d =
      { d with calls := d.calls ++
          (List.range n).map (fun k => DisplayCall.DrawPixel (u32 (x0 + k)) y b) } := by
  induction n with
  | zero => simp [forUp]
  | succ n ih =>
    rw [forUp_succ, ih]
    simp [callLogOps, List.range_succ]

theorem callLog_bar (x0 cury m : Nat) (b : Bool) (n : Nat) (d : CallLog) :
    forDown n (fun j d =>
        forUp m (fun k d => callLogOps.DrawPixel d (u32 (x0 + k)) (sub32 cury j) b) d) d =
      { d with calls := d.calls ++
          (List.range n).flatMap (fun r =>
            (List.range m).map
              (fun k => DisplayCall.DrawPixel (u32 (x0 + k)) (sub32 cury (n - r)) b)) } := by
  induction n generalizing d with
  | zero => simp [forDown]
  | succ n ih =>
    rw [forDown, ih, callLog_row, List.range_succ_eq_map, List.flatMap_cons, List.flatMap_map]
    simp only [List.append_assoc, Nat.sub_zero, Function.comp_def, Nat.succ_eq_add_one,
      Nat.add_sub_add_right]

/-- Without wrap-around the calls of a channel are the bar's rectangle. -/
theorem barCalls_eq_barRectangle (H i : Nat) (v : ℚ) (b : Bool) (hi : i < 4)
    (hH : H < 4294967296) (hd : toSizeT (f32mul v (f32ofSizeT H)) ≤ H) :
    barCalls H i v b
      = barRectangle H (35 * i + 1) (toSizeT (f32mul v (f32ofSizeT H))) b := by
  have hx : u32 (u32 (u32 (20 * i) + 1) + u32 (15 * i)) = 35 * i + 1 := by
    simp only [u32]; omega
  unfold barCalls barRectangle
  rw [hx]
  apply List.flatMap_congr
  intro r hr
  apply List.map_congr_left
  intro k hk
  rw [List.mem_range] at hr hk
  rw [u32_of_lt (by omega), u32_of_lt hH, sub32_of_le hH (by omega)]
  congr 1
  omega

theorem count_Update_barCalls (H i : Nat) (v : ℚ) (b : Bool) :
    (barCalls H i v b).count DisplayCall.Update = 0 := by
  rw [List.count_eq_zero]
  intro h
  simp [barCalls] at h

variable {S E C D R SR : Type}

/-- A call before the period has elapsed returns the board as it was, on any display. -/
theorem DisplayControls_idle (dops : DisplayOps D) (cops : ControlOps C R)
    (s : DaisyDSP S E C D) (invert : Bool) (now stamp : Nat)
    (h : ¬ sub32 now s.screen_update_last_ > s.screen_update_period_) :
    DaisyDSP.DisplayControls dops cops s invert now stamp = s := by
  unfold DaisyDSP.DisplayControls
  simp only [h, if_false]

/-- What a firing `DisplayControls` asks of a recording display. -/
theorem DisplayControls_fire (cops : ControlOps C R) (s : DaisyDSP S E C CallLog)
    (invert : Bool) (now stamp : Nat)
    (hfire : sub32 now s.screen_update_last_ > s.screen_update_period_) :
    DaisyDSP.DisplayControls callLogOps cops s invert now stamp =
      { s with
        screen_update_last_ := u32 stamp
        display := { s.display with calls := s.display.calls ++
          [DisplayCall.Fill invert] ++
          (List.finRange CTRL_LAST).flatMap (fun i =>
            barCalls s.display.height i.val (cops.Value (s.controls i)).toRat (!invert)) ++
          [DisplayCall.Update] } } := by
  have hon : (if invert then false else true) = !invert := by cases invert <;> rfl
  have hoff : (if invert then true else false) = invert := by cases invert <;> rfl
  have hbody : ∀ (i : Fin 4) (d : CallLog), d.height = s.display.height →
      forDown (toSizeT (f32mul (cops.Value (s.controls i)).toRat
          (f32ofSizeT (callLogOps.Height d))))
        (fun j e => forUp 15 (fun k e => callLogOps.DrawPixel e
          (u32 (u32 (u32 (u32 (20 * i.val) + 1) + u32 (15 * i.val)) + k))
          (sub32 (u32 (callLogOps.Height d)) j) (!invert)) e) d
      = { d with calls := (d.calls ++
          barCalls s.display.height i.val (cops.Value (s.controls i)).toRat (!invert)) } := by
    intro i d hd
    have hh : callLogOps.Height d = s.display.height := hd
    rw [hh, callLog_bar]
    rfl
  unfold DaisyDSP.DisplayControls
  simp only [hfire, if_true, hon, hoff, DaisyDSP.GetKnobValue]
  have hfin : List.finRange CTRL_LAST = [0, 1, 2, 3] := rfl
  rw [forFin_four, hbody 0, hbody 1, hbody 2, hbody 3]
  · simp only [hfin, callLogOps, List.flatMap_cons, List.flatMap_nil, List.append_assoc,
      List.append_nil]
  all_goals rfl

/-- A firing call adds exactly one `Update` to the display's record. -/
theorem updateCount_fire (cops : ControlOps C R) (s : DaisyDSP S E C CallLog)
    (invert : Bool) (now stamp : Nat)
    (hfire : sub32 now s.screen_update_last_ > s.screen_update_period_) :
    updateCount (DaisyDSP.DisplayControls callLogOps cops s invert now stamp).display
      = updateCount s.display + 1 := by
  rw [DisplayControls_fire cops s invert now stamp hfire]
  have hfin : List.finRange CTRL_LAST = [0, 1, 2, 3] := rfl
  simp [updateCount, hfin, count_Update_barCalls, List.count_cons, List.count_nil]

/-- Calls whose clock reading is within the period of the last refresh change nothing. -/
theorem DisplayControlsRun_idle (dops : DisplayOps D) (cops : ControlOps C R)
    (s : DaisyDSP S E C D) (later : List (Bool × Nat × Nat))
    (h : ∀ c ∈ later, sub32 c.2.1 s.screen_update_last_ ≤ s.screen_update_period_) :
    DisplayControlsRun dops cops s later = s := by
  induction later with
  | nil => rfl
  | cons c rest ih =>
    have hc := h c (List.mem_cons_self _ _)
    rw [DisplayControlsRun, DisplayControls_idle dops cops s c.1 c.2.1 c.2.2 (by omega)]
    exact ih (fun c' hc' => h c' (List.mem_cons_of_mem _ hc'))

theorem DisplayControlsRun_append (dops : DisplayOps D) (cops : ControlOps C R)
    (s : DaisyDSP S E C D) (l1 l2 : List (Bool × Nat × Nat)) :
    DisplayControlsRun dops cops s (l1 ++ l2)
      = DisplayControlsRun dops cops (DisplayControlsRun dops cops s l1) l2 := by
  induction l1 generalizing s with
  | nil => rfl
  | cons c rest ih => exact ih _


/-- C8: `DisplayControls` is rate-limited. After `Init` the period is 17 and the last
refresh mark is the clock reading. With `elapsed = now - screen_update_last_` computed
modulo 2^32, a call makes the display redraw (one more `Update` in the display's record)
if and only if `elapsed > screen_update_period_`. A call that does not fire returns the
board unchanged, on the recording display and on any other display: no display call is
made and the scheduling state is untouched. A call that fires sets `screen_update_last_`
to the clock reading taken at that moment and keeps the period; any further calls whose
reading is within one period of that mark leave the board as it is, and the first call
after them whose reading is more than a period past the mark redraws exactly once. -/
theorem DisplayControls_rate_limited (sops : SeedOps S R SR) (eops : EncoderOps E)
    (cops : ControlOps C R) (s : DaisyDSP S E C CallLog) (invert : Bool) (now stamp : Nat) :
    (∀ (boost : Bool) (t : Nat),
      (DaisyDSP.Init sops eops callLogOps cops s boost t).screen_update_period_ = 17 ∧
      (DaisyDSP.Init sops eops callLogOps cops s boost t).screen_update_last_ = u32 t) ∧
    (updateCount (DaisyDSP.DisplayControls callLogOps cops s invert now stamp).display
        = updateCount s.display + 1
      ↔ sub32 now s.screen_update_last_ > s.screen_update_period_) ∧
    (¬ sub32 now s.screen_update_last_ > s.screen_update_period_ →
      DaisyDSP.DisplayControls callLogOps cops s invert now stamp = s) ∧
    (∀ (D' : Type) (dops : DisplayOps D') (s' : DaisyDSP S E C D'),
      ¬ sub32 now s'.screen_update_last_ > s'.screen_update_period_ →
      DaisyDSP.DisplayControls dops cops s' invert now stamp = s') ∧
    (sub32 now s.screen_update_last_ > s.screen_update_period_ →
      (DaisyDSP.DisplayControls callLogOps cops s invert now stamp).screen_update_last_
        = u32 stamp ∧
      (DaisyDSP.DisplayControls callLogOps cops s invert now stamp).screen_update_period_
        = s.screen_update_period_ ∧
      ∀ later : List (Bool × Nat × Nat),
        (∀ c ∈ later, sub32 c.2.1 (u32 stamp) ≤ s.screen_update_period_) →
        DisplayControlsRun callLogOps cops
            (DaisyDSP.DisplayControls callLogOps cops s invert now stamp) later
          = DaisyDSP.DisplayControls callLogOps cops s invert now stamp ∧
        ∀ c : Bool × Nat × Nat, sub32 c.2.1 (u32 stamp) > s.screen_update_period_ →
          updateCount (DisplayControlsRun callLogOps cops
              (DaisyDSP.DisplayControls callLogOps cops s invert now stamp)
              (later ++ [c])).display
            = updateCount s.display + 2) := by
  refine ⟨fun boost t => ⟨rfl, rfl⟩, ?_, ?_, ?_, ?_⟩
  · constructor
    · intro h
      by_contra hn
      rw [DisplayControls_idle callLogOps cops s invert now stamp hn] at h
      omega
    · exact updateCount_fire cops s invert now stamp
  · exact DisplayControls_idle callLogOps cops s invert now stamp
  · intro D' dops s' h
    exact DisplayControls_idle dops cops s' invert now stamp h
  · intro hfire
    have hs := DisplayControls_fire cops s invert now stamp hfire
    have hl : (DaisyDSP.DisplayControls callLogOps cops s invert now stamp).screen_update_last_
        = u32 stamp := by rw [hs]
    have hp : (DaisyDSP.DisplayControls callLogOps cops s invert now stamp).screen_update_period_
        = s.screen_update_period_ := by rw [hs]
    refine ⟨hl, hp, ?_⟩
    intro later hlater
    have hrun := DisplayControlsRun_idle callLogOps cops
      (DaisyDSP.DisplayControls callLogOps cops s invert now stamp) later
      (by rw [hl, hp]; exact hlater)
    refine ⟨hrun, ?_⟩
    intro c hc
    rw [DisplayControlsRun_append, hrun]
    show updateCount (DaisyDSP.DisplayControls callLogOps cops _ c.1 c.2.1 c.2.2).display = _
    rw [updateCount_fire cops _ c.1 c.2.1 c.2.2 (by rw [hl, hp]; exact hc),
      updateCount_fire cops s invert now stamp hfire]

/-- C9 (amended): when `DisplayControls` fires on a display of height `H < 2^24` and
every control value `v` (a binary32 `float`) lies in `[0, 1]`, the display is asked, in
order, for `Fill(off)`, then for each channel `i = 0..3` the pixels of a bar, then
`Update`. The bar of channel `i` is the rectangle of columns `i * (15 + 20) + 1` to
`i * (15 + 20) + 15` and of the lowest `dest` rows, where `dest` is the binary32 product
`v * H` with its fractional part discarded. `dest` is not `round(v * H)`: it is at least
`floor(v * H)`, at most `ceil(v * H)` and at most `H`, and it is exactly `floor(v * H)`
when `H` is a power of two (as on the board, `H = 64`). In particular the values
0, 1/4, 1/2, 1 give bars of heights 0, `H / 4`, `H / 2` (integer division) and `H` at
horizontal offsets 1, 36, 71, 106. -/
theorem DisplayControls_bars (cops : ControlOps C R) (s : DaisyDSP S E C CallLog)
    (invert : Bool) (now stamp : Nat)
    (hfire : sub32 now s.screen_update_last_ > s.screen_update_period_)
    (hH : s.display.height < 16777216)
    (hv : ∀ i : Fin CTRL_LAST,
      0 ≤ (cops.Value (s.controls i)).toRat ∧ (cops.Value (s.controls i)).toRat ≤ 1) :
    (DaisyDSP.DisplayControls callLogOps cops s invert now stamp).display.calls
      = s.display.calls ++ [DisplayCall.Fill invert] ++
        (List.finRange CTRL_LAST).flatMap (fun i =>
          barRectangle s.display.height (i.val * (15 + 20) + 1)
            (toSizeT (f32mul (cops.Value (s.controls i)).toRat
              (f32ofSizeT s.display.height))) (!invert)) ++
        [DisplayCall.Update] ∧
    (∀ i : Fin CTRL_LAST,
      Nat.floor ((cops.Value (s.controls i)).toRat * (s.display.height : ℚ))
        ≤ toSizeT (f32mul (cops.Value (s.controls i)).toRat (f32ofSizeT s.display.height)) ∧
      toSizeT (f32mul (cops.Value (s.controls i)).toRat (f32ofSizeT s.display.height))
        ≤ Nat.ceil ((cops.Value (s.controls i)).toRat * (s.display.height : ℚ)) ∧
      toSizeT (f32mul (cops.Value (s.controls i)).toRat (f32ofSizeT s.display.height))
        ≤ s.display.height) ∧
    (∀ n : Nat, s.display.height = 2 ^ n → ∀ i : Fin CTRL_LAST,
      toSizeT (f32mul (cops.Value (s.controls i)).toRat (f32ofSizeT s.display.height))
        = Nat.floor ((cops.Value (s.controls i)).toRat * (s.display.height : ℚ))) ∧
    ((∀ i : Fin CTRL_LAST, (cops.Value (s.controls i)).toRat = (quarterValues i).toRat) →
      (DaisyDSP.DisplayControls callLogOps cops s invert now stamp).display.calls
        = s.display.calls ++ [DisplayCall.Fill invert] ++
          (barRectangle s.display.height 1 0 (!invert) ++
           barRectangle s.display.height 36 (s.display.height / 4) (!invert) ++
           barRectangle s.display.height 71 (s.display.height / 2) (!invert) ++
           barRectangle s.display.height 106 s.display.height (!invert)) ++
          [DisplayCall.Update]) := by
  have hfin : List.finRange CTRL_LAST = [0, 1, 2, 3] := rfl
  have hH' : s.display.height < 4294967296 := by omega
  have hb : ∀ i : Fin CTRL_LAST, _ :=
    fun i => dest_bounds (cops.Value (s.controls i)).toRat s.display.height hH
      (hv i).1 (hv i).2
  have hmain : (DaisyDSP.DisplayControls callLogOps cops s invert now stamp).display.calls
      = s.display.calls ++ [DisplayCall.Fill invert] ++
        (List.finRange CTRL_LAST).flatMap (fun i =>
          barRectangle s.display.height (i.val * (15 + 20) + 1)
            (toSizeT (f32mul (cops.Value (s.controls i)).toRat
              (f32ofSizeT s.display.height))) (!invert)) ++
        [DisplayCall.Update] := by
    rw [DisplayControls_fire cops s invert now stamp hfire]
    simp only []
    congr 2
    apply List.flatMap_congr
    intro i _
    rw [barCalls_eq_barRectangle _ _ _ _ i.isLt hH' (hb i).2.2]
    congr 1
    omega
  refine ⟨hmain, hb, ?_, ?_⟩
  · intro n hn i
    rw [hn]
    exact dest_pow2 _ n (hv i).1 (hv i).2 (by rw [← hn]; exact hH)
  · intro hq
    rw [hmain]
    have q0 : toSizeT (f32mul (quarterValues 0).toRat (f32ofSizeT s.display.height)) = 0 := by
      rw [dest_of_dyadic _ 0 0 s.display.height
        (by norm_num [quarterValues, F32.ofParts, F32.toRat]) hH (by omega) (by decide)]
      simp
    have q1 : toSizeT (f32mul (quarterValues 1).toRat (f32ofSizeT s.display.height))
        = s.display.height / 4 := by
      rw [dest_of_dyadic _ 1 2 s.display.height
        (by norm_num [quarterValues, F32.ofParts, F32.toRat]) hH (by omega) (by decide)]
      simp
    have q2 : toSizeT (f32mul (quarterValues 2).toRat (f32ofSizeT s.display.height))
        = s.display.height / 2 := by
      rw [dest_of_dyadic _ 1 1 s.display.height
        (by norm_num [quarterValues, F32.ofParts, F32.toRat]) hH (by omega) (by decide)]
      simp
    have q3 : toSizeT (f32mul (quarterValues 3).toRat (f32ofSizeT s.display.height))
        = s.display.height := by
      have e3 : quarterValues 3 = F32.ofParts 1 0 (by decide) (by decide) (by decide) := rfl
      rw [dest_of_dyadic _ 1 0 s.display.height
        (by rw [e3]; norm_num [F32.ofParts, F32.toRat]) hH (by omega) (by decide)]
      simp
    simp only [hfin, List.flatMap_cons, List.flatMap_nil, List.append_nil, hq, q0, q1, q2,
      q3, List.append_assoc]
    rfl

/-- C10: for every board state, `SetAudioSampleRate(rate)` and `SetAudioBlockSize(n)`
leave the seed in the state its own setter produces and every one of the `CTRL_LAST = 4`
control channels in the state `SetSampleRate` produces from its previous state with the
seed's new audio callback rate. Hence for any control implementation whose sample rate
can be read back, all four channels carry the board's new `AudioCallbackRate()` when the
call returns. -/
theorem SetAudio_propagates_rate (sops : SeedOps S R SR) (cops : ControlOps C R)
    (s : DaisyDSP S E C D) (samplerate : SR) (size : Nat) :
    ((DaisyDSP.SetAudioSampleRate sops cops s samplerate).seed
        = sops.SetAudioSampleRate s.seed samplerate ∧
      ∀ i : Fin CTRL_LAST,
        (DaisyDSP.SetAudioSampleRate sops cops s samplerate).controls i
          = cops.SetSampleRate (s.controls i)
              (sops.AudioCallbackRate (sops.SetAudioSampleRate s.seed samplerate))) ∧
    ((DaisyDSP.SetAudioBlockSize sops cops s size).seed = sops.SetAudioBlockSize s.seed size ∧
      ∀ i : Fin CTRL_LAST,
        (DaisyDSP.SetAudioBlockSize sops cops s size).controls i
          = cops.SetSampleRate (s.controls i)
              (sops.AudioCallbackRate (sops.SetAudioBlockSize s.seed size))) ∧
    (∀ rateOf : C → R, (∀ (c : C) (r : R), rateOf (cops.SetSampleRate c r) = r) →
      ∀ i : Fin CTRL_LAST,
        rateOf ((DaisyDSP.SetAudioSampleRate sops cops s samplerate).controls i)
          = DaisyDSP.AudioCallbackRate sops (DaisyDSP.SetAudioSampleRate sops cops s samplerate) ∧
        rateOf ((DaisyDSP.SetAudioBlockSize sops cops s size).controls i)
          = DaisyDSP.AudioCallbackRate sops (DaisyDSP.SetAudioBlockSize sops cops s size)) := by
  have key : ∀ s0 : DaisyDSP S E C D,
      (DaisyDSP.SetHidUpdateRates sops cops s0).seed = s0.seed ∧
      ∀ i : Fin CTRL_LAST, (DaisyDSP.SetHidUpdateRates sops cops s0).controls i
        = cops.SetSampleRate (s0.controls i) (sops.AudioCallbackRate s0.seed) := by
    intro s0
    unfold DaisyDSP.SetHidUpdateRates
    rw [forFin_four]
    refine ⟨rfl, ?_⟩
    intro i
    fin_cases i <;> rfl
  obtain ⟨a1, a2⟩ := key { s with seed := sops.SetAudioSampleRate s.seed samplerate }
  obtain ⟨b1, b2⟩ := key { s with seed := sops.SetAudioBlockSize s.seed size }
  refine ⟨⟨a1, a2⟩, ⟨b1, b2⟩, ?_⟩
  intro rateOf hrate i
  constructor
  · show rateOf ((DaisyDSP.SetHidUpdateRates sops cops _).controls i)
      = sops.AudioCallbackRate (DaisyDSP.SetHidUpdateRates sops cops _).seed
    rw [a2 i, a1, hrate]
  · show rateOf ((DaisyDSP.SetHidUpdateRates sops cops _).controls i)
      = sops.AudioCallbackRate (DaisyDSP.SetHidUpdateRates sops cops _).seed
    rw [b2 i, b1, hrate]


/-- A channel whose converted value is 0 draws nothing. -/
theorem barCalls_of_zero (H i : Nat) (v : ℚ) (b : Bool)
    (h : toSizeT (f32mul v (f32ofSizeT H)) = 0) : barCalls H i v b = [] := by
  unfold barCalls
  rw [h]
  rfl

/-- C8 on a board whose last refresh was at time 0 with period 17: a call at time 18
redraws once, a call at time 17 changes nothing. -/
theorem DisplayControls_rate_limited_witness :
    sub32 18 (sampleBoard 64 quarterValues 0).screen_update_last_
      > (sampleBoard 64 quarterValues 0).screen_update_period_ ∧
    updateCount (DaisyDSP.DisplayControls callLogOps valueControls
        (sampleBoard 64 quarterValues 0) true 18 18).display
      = updateCount (sampleBoard 64 quarterValues 0).display + 1 ∧
    ¬ sub32 17 (sampleBoard 64 quarterValues 0).screen_update_last_
      > (sampleBoard 64 quarterValues 0).screen_update_period_ ∧
    DaisyDSP.DisplayControls callLogOps valueControls (sampleBoard 64 quarterValues 0) true 17 17
      = sampleBoard 64 quarterValues 0 :=
  ⟨by decide,
    (DisplayControls_rate_limited unitSeed unitEncoder valueControls
      (sampleBoard 64 quarterValues 0) true 18 18).2.1.mpr (by decide),
    by decide,
    (DisplayControls_rate_limited unitSeed unitEncoder valueControls
      (sampleBoard 64 quarterValues 0) true 17 17).2.2.1 (by decide)⟩

/-- The sample control values lie in the unit interval. -/
theorem quarterValues_range (i : Fin CTRL_LAST) :
    0 ≤ (quarterValues i).toRat ∧ (quarterValues i).toRat ≤ 1 := by
  fin_cases i <;> norm_num [quarterValues, F32.ofParts, F32.toRat]

/-- C9 (amended) on a display of height 64 with control values 0, 1/4, 1/2, 1: bars of
0, 16, 32 and 64 rows at offsets 1, 36, 71, 106. -/
theorem DisplayControls_bars_witness :
    sub32 18 (sampleBoard 64 quarterValues 0).screen_update_last_
      > (sampleBoard 64 quarterValues 0).screen_update_period_ ∧
    (sampleBoard 64 quarterValues 0).display.height < 16777216 ∧
    (∀ i : Fin CTRL_LAST,
      0 ≤ (valueControls.Value ((sampleBoard 64 quarterValues 0).controls i)).toRat ∧
      (valueControls.Value ((sampleBoard 64 quarterValues 0).controls i)).toRat ≤ 1) ∧
    (DaisyDSP.DisplayControls callLogOps valueControls
        (sampleBoard 64 quarterValues 0) true 18 18).display.calls
      = [] ++ [DisplayCall.Fill true] ++
          (barRectangle 64 1 0 false ++ barRectangle 64 36 (64 / 4) false ++
           barRectangle 64 71 (64 / 2) false ++ barRectangle 64 106 64 false) ++
          [DisplayCall.Update] :=
  ⟨by decide, by decide, quarterValues_range,
    (DisplayControls_bars valueControls (sampleBoard 64 quarterValues 0) true 18 18
      (by decide) (by decide) quarterValues_range).2.2.2 (fun _ => rfl)⟩

/-- C9 as stated fails: on a display of height 64 with every control value 3/256,
`v * H = 3/4` (exact in binary32), so the claimed bar height `round(v * H)` is 1 row,
but the code converts 3/4 to the integer 0 and draws no pixel at all: the display is
asked for `Fill` and `Update` only. -/
theorem DisplayControls_bar_not_rounded :
    (DaisyDSP.DisplayControls callLogOps valueControls
        (sampleBoard 64 lowValues 0) true 18 18).display.calls
      = [DisplayCall.Fill true, DisplayCall.Update] ∧
    (valueControls.Value ((sampleBoard 64 lowValues 0).controls 0)).toRat = 3 / 256 ∧
    toSizeT (f32mul (valueControls.Value ((sampleBoard 64 lowValues 0).controls 0)).toRat
      (f32ofSizeT 64)) = 0 ∧
    round ((valueControls.Value ((sampleBoard 64 lowValues 0).controls 0)).toRat
      * ((64 : ℕ) : ℚ)) = 1 := by
  have hlow : ∀ i : Fin CTRL_LAST, (lowValues i).toRat = 3 / 256 := by
    intro i
    norm_num [lowValues, F32.ofParts, F32.toRat]
  have hz : ∀ i : Fin CTRL_LAST, toSizeT (f32mul (lowValues i).toRat (f32ofSizeT 64)) = 0 := by
    intro i
    rw [dest_of_dyadic _ 3 8 64 (by rw [hlow]; norm_num) (by decide) (by decide) (by decide)]
    rfl
  refine ⟨?_, hlow 0, hz 0, ?_⟩
  · rw [DisplayControls_fire valueControls (sampleBoard 64 lowValues 0) true 18 18 (by decide)]
    have hb : ∀ i : Fin CTRL_LAST,
        barCalls (sampleBoard 64 lowValues 0).display.height i.val
          (valueControls.Value ((sampleBoard 64 lowValues 0).controls i)).toRat (!true) = [] :=
      fun i => barCalls_of_zero _ _ _ _ (hz i)
    have hfin : List.finRange CTRL_LAST = [0, 1, 2, 3] := rfl
    simp only [hfin, List.flatMap_cons, List.flatMap_nil, hb, List.append_nil]
    rfl
  · show round ((lowValues 0).toRat * ((64 : ℕ) : ℚ)) = 1
    rw [hlow, round_eq, Int.floor_eq_iff]
    norm_num
/-! ## The 4-bit frame inside `buffer_` -/

/-- The data bytes of two runs of transport calls, one after the other. -/
theorem dataBytes_append (t1 t2 : List TransportEvent) :
    dataBytes (t1 ++ t2) = dataBytes t1 ++ dataBytes t2 := by
  induction t1 with
  | nil => rfl
  | cons e rest ih =>
    cases e <;> simp [dataBytes, ih]

/-- A command carries no data byte. -/
theorem dataBytes_SendCommand (c : Nat) (t : List TransportEvent) :
    dataBytes (SendCommand c t) = dataBytes t := by
  simp [SendCommand, dataBytes_append, dataBytes]

/-- The data bytes of a run of data transfers are their payloads end to end. -/
theorem dataBytes_map_data (f : Nat → List Nat) (n : Nat) :
    dataBytes ((List.range n).map (fun line => TransportEvent.data (f line)))
      = ((List.range n).map f).flatten := by
  induction n with
  | zero => rfl
  | succ n ih =>
    simp [List.range_succ, dataBytes_append, ih, dataBytes]

/-- The data bytes of a 4-bit `Update` are the first `height * (width / 2)` bytes of
the buffer. -/
theorem Update_dataBytes_1327 {width height : Nat} (s : SSD1327Driver width height) :
    dataBytes (SSD1327Driver.Update s).transport_
      = dataBytes s.transport_ ++ s.buffer_.take (height * (width / 2)) := by
  simp only [SSD1327Driver.Update, rowLoop_eq, dataBytes_append, dataBytes_SendCommand,
    dataBytes_map_data, slices_flatten]

/-- The byte index of a valid pixel of an even-height panel lies in the lower half. -/
theorem packedIndex_lt {width height x y : Nat} (hh : height % 2 = 0)
    (hx : x < width) (hy : y < height) : x + (y / 2) * width < width * height / 2 := by
  have h2 : height = 2 * (height / 2) := by omega
  have hy2 : y / 2 + 1 ≤ height / 2 := by omega
  have e : width * height / 2 = width * (height / 2) := by
    conv_lhs => rw [h2]
    rw [← Nat.mul_assoc, Nat.mul_comm width 2, Nat.mul_assoc,
      Nat.mul_div_cancel_left _ (by decide : 0 < 2)]
  rw [e]
  calc x + (y / 2) * width < width + (y / 2) * width := by omega
    _ = (y / 2 + 1) * width := by ring
    _ ≤ (height / 2) * width := Nat.mul_le_mul_right _ hy2
    _ = width * (height / 2) := Nat.mul_comm _ _

/-- C11: in the SSD1327 driver with even width and even height and a buffer of the
declared size `width * height`: for every valid pixel the byte index `x + (y / 2) * width`
used by `DrawPixel` is below `width * height / 2`, hence inside `buffer_` and inside the
`height * (width / 2)` bytes that `Update` transmits; every index below `width * height / 2`
is the index of some valid pixel, and `DrawPixel` on that pixel does write that byte; no
`DrawPixel` call, valid or not, changes a byte at index `width * height / 2` or above; the
data bytes `Update` sends are exactly the first `width * height / 2` bytes of `buffer_`,
and on a non-empty panel that is a proper prefix: the upper half of `buffer_` is neither
drawn to by `DrawPixel` nor transmitted. -/
theorem SSD1327_drawn_bytes_are_sent_bytes {width height : Nat}
    (s : SSD1327Driver width height) (hwf : s.WF)
    (hw : width % 2 = 0) (hh : height % 2 = 0) :
    (∀ x y : Nat, x < width → y < height →
      x + (y / 2) * width < width * height / 2 ∧
      x + (y / 2) * width < s.buffer_.length ∧
      x + (y / 2) * width < height * (width / 2)) ∧
    (∀ idx : Nat, idx < width * height / 2 →
      ∃ x y : Nat, x < width ∧ y < height ∧ x + (y / 2) * width = idx ∧
        (s.DrawPixel x y false).buffer_[idx]? = some 0) ∧
    (∀ (x y : Nat) (b : Bool) (idx : Nat), width * height / 2 ≤ idx →
      (s.DrawPixel x y b).buffer_[idx]? = s.buffer_[idx]?) ∧
    dataBytes (SSD1327Driver.Update s).transport_
      = dataBytes s.transport_ ++ s.buffer_.take (width * height / 2) ∧
    (s.buffer_.take (width * height / 2)).length = width * height / 2 ∧
    (0 < width * height → width * height / 2 < s.buffer_.length) := by
  have h2 : height = 2 * (height / 2) := by omega
  have w2 : width = 2 * (width / 2) := by omega
  have e1 : width * height / 2 = width * (height / 2) := by
    conv_lhs => rw [h2]
    rw [← Nat.mul_assoc, Nat.mul_comm width 2, Nat.mul_assoc,
      Nat.mul_div_cancel_left _ (by decide : 0 < 2)]
  have e2 : width * height / 2 = height * (width / 2) := by
    conv_lhs => rw [w2]
    rw [Nat.mul_assoc, Nat.mul_div_cancel_left _ (by decide : 0 < 2), Nat.mul_comm]
  have hle : width * height / 2 ≤ s.buffer_.length := by
    rw [hwf]; exact Nat.div_le_self _ _
  refine ⟨?_, ?_, ?_, ?_, ?_, ?_⟩
  · intro x y hx hy
    have := packedIndex_lt hh hx hy
    exact ⟨this, by omega, by omega⟩
  · intro idx hidx
    rw [e1] at hidx
    have hw0 : 0 < width := by
      rcases Nat.eq_zero_or_pos width with h | h
      · rw [h] at hidx; simp at hidx
      · exact h
    have hx : idx % width < width := Nat.mod_lt _ hw0
    have hq : idx / width < height / 2 := by
      rw [Nat.div_lt_iff_lt_mul hw0, Nat.mul_comm]; exact hidx
    have hy : 2 * (idx / width) < height := by omega
    have hidx' : idx % width + (2 * (idx / width) / 2) * width = idx := by
      rw [Nat.mul_div_cancel_left _ (by decide : 0 < 2), Nat.mul_comm]
      exact Nat.mod_add_div idx width
    refine ⟨idx % width, 2 * (idx / width), hx, hy, hidx', ?_⟩
    rw [SSD1327Driver.DrawPixel_of_valid_1327 s hx hy, hidx']
    simp only [Bool.false_eq_true, if_false]
    rw [List.getElem?_set_self (by rw [← e1] at hidx; omega)]
  · intro x y b idx hidx
    by_cases hv : x < width ∧ y < height
    · have hlt := packedIndex_lt hh hv.1 hv.2
      rw [SSD1327Driver.DrawPixel_of_valid_1327 s hv.1 hv.2]
      simp only []
      rw [List.getElem?_set_ne (by omega)]
    · have hg : x ≥ width ∨ y ≥ height := by omega
      simp [SSD1327Driver.DrawPixel, hg]
  · rw [Update_dataBytes_1327, e2]
  · rw [List.length_take]; omega
  · intro hpos
    rw [hwf]
    exact Nat.div_lt_self hpos (by decide)


/-- C11 on a 128x128 panel: `Update` sends the first `128 * 128 / 2` bytes of the buffer
and `DrawPixel` never changes a byte above them. -/
theorem SSD1327_drawn_bytes_are_sent_bytes_witness :
    (SSD1327Driver.uniform 128 128 0x5a 0x0f).WF ∧ 128 % 2 = 0 ∧
    (∀ x y : Nat, x < 128 → y < 128 →
      x + (y / 2) * 128 < 128 * 128 / 2 ∧
      x + (y / 2) * 128 < (SSD1327Driver.uniform 128 128 0x5a 0x0f).buffer_.length ∧
      x + (y / 2) * 128 < 128 * (128 / 2)) ∧
    dataBytes (SSD1327Driver.Update (SSD1327Driver.uniform 128 128 0x5a 0x0f)).transport_
      = dataBytes (SSD1327Driver.uniform 128 128 0x5a 0x0f).transport_ ++
        (SSD1327Driver.uniform 128 128 0x5a 0x0f).buffer_.take (128 * 128 / 2) :=
  ⟨SSD1327Driver.uniform_WF_1327 _ _ _ _, by decide,
    (SSD1327_drawn_bytes_are_sent_bytes (SSD1327Driver.uniform 128 128 0x5a 0x0f)
      (SSD1327Driver.uniform_WF_1327 _ _ _ _) (by decide) (by decide)).1,
    (SSD1327_drawn_bytes_are_sent_bytes (SSD1327Driver.uniform 128 128 0x5a 0x0f)
      (SSD1327Driver.uniform_WF_1327 _ _ _ _) (by decide) (by decide)).2.2.2.1⟩

/-! ## The bars stay on the board's 128x64 display -/

/-- The pixels of a bar's rectangle. -/
theorem mem_barRectangle (H x0 rows : Nat) (on_ : Bool) (x y : Nat) (b : Bool) :
    DisplayCall.DrawPixel x y b ∈ barRectangle H x0 rows on_ ↔
      ∃ r k : Nat, r < rows ∧ k < 15 ∧ x = x0 + k ∧ y = H - rows + r ∧ b = on_ := by
  simp only [barRectangle, List.mem_flatMap, List.mem_map, List.mem_range,
    DisplayCall.DrawPixel.injEq]
  constructor
  · rintro ⟨r, hr, k, hk, h1, h2, h3⟩
    exact ⟨r, k, hr, hk, h1.symm, h2.symm, h3.symm⟩
  · rintro ⟨r, k, hr, hk, h1, h2, h3⟩
    exact ⟨r, hr, k, hk, h1.symm, h2.symm, h3.symm⟩

/-- C12: on a display of height 64 (the board's 128x64 display), when `DisplayControls`
fires and all four control values (binary32 `float`s) lie in `[0, 1]`, the `DrawPixel`
calls it issues are exactly the calls with `x = 35 * i + 1 + k`, `y = 64 - j` and
`on = !invert` for a channel `i` in 0..3, `k` in 0..14 and `j` in 1..`floor(v_i * 64)`
(the binary32 product `v_i * 64` is exact, so `dest` is that floor).
For each of them `j <= 64`, so the `size_t` subtraction `cury - j` does not wrap and is
`64 - j`, the `size_t` sum `curx + k` does not wrap either, and `x < 128`, `y < 64`: the
pixel passes the driver's out-of-range guard. -/
theorem DisplayControls_pixels_in_range (cops : ControlOps C R)
    (s : DaisyDSP S E C CallLog) (invert : Bool) (now stamp : Nat)
    (hfire : sub32 now s.screen_update_last_ > s.screen_update_period_)
    (hH : s.display.height = 64)
    (hv : ∀ i : Fin CTRL_LAST,
      0 ≤ (cops.Value (s.controls i)).toRat ∧ (cops.Value (s.controls i)).toRat ≤ 1) :
    (∀ (x y : Nat) (b : Bool),
      DisplayCall.DrawPixel x y b ∈
          (DaisyDSP.DisplayControls callLogOps cops s invert now stamp).display.calls.drop
            s.display.calls.length ↔
        ∃ (i : Fin CTRL_LAST) (k j : Nat), k < 15 ∧ 1 ≤ j ∧
          j ≤ Nat.floor ((cops.Value (s.controls i)).toRat * 64) ∧
          x = 35 * i.val + 1 + k ∧ y = 64 - j ∧ b = !invert) ∧
    (∀ (i : Fin CTRL_LAST) (k j : Nat), k < 15 → 1 ≤ j →
      j ≤ Nat.floor ((cops.Value (s.controls i)).toRat * 64) →
        j ≤ 64 ∧ sub32 (u32 64) j = 64 - j ∧
        u32 (u32 (u32 (u32 (20 * i.val) + 1) + u32 (15 * i.val)) + k) = 35 * i.val + 1 + k ∧
        35 * i.val + 1 + k < 128 ∧ 64 - j < 64) := by
  have hH' : s.display.height < 4294967296 := by rw [hH]; decide
  have hH24 : s.display.height < 16777216 := by rw [hH]; decide
  have h64 : (2 : ℕ) ^ 6 = 64 := by norm_num
  have hrows : ∀ i : Fin CTRL_LAST,
      toSizeT (f32mul (cops.Value (s.controls i)).toRat (f32ofSizeT s.display.height))
        = Nat.floor ((cops.Value (s.controls i)).toRat * 64) := by
    intro i
    have h := dest_pow2 (cops.Value (s.controls i)) 6 (hv i).1 (hv i).2 (by decide)
    rw [h64] at h
    rw [hH, h]
    norm_num
  have hle : ∀ i : Fin CTRL_LAST,
      toSizeT (f32mul (cops.Value (s.controls i)).toRat (f32ofSizeT s.display.height))
        ≤ s.display.height :=
    fun i => (dest_bounds _ _ hH24 (hv i).1 (hv i).2).2.2
  have hdest : ∀ i : Fin CTRL_LAST,
      Nat.floor ((cops.Value (s.controls i)).toRat * 64) ≤ 64 := by
    intro i
    have := hle i
    rw [hrows i, hH] at this
    exact this
  constructor
  · intro x y b
    rw [DisplayControls_fire cops s invert now stamp hfire]
    simp only [List.append_assoc, List.drop_left]
    simp only [List.mem_append, List.mem_cons, List.mem_singleton, List.mem_flatMap,
      List.not_mem_nil, or_false, false_or, reduceCtorEq]
    constructor
    · rintro ⟨i, -, hmem⟩
      rw [barCalls_eq_barRectangle _ _ _ _ i.isLt hH' (hle i), mem_barRectangle,
        hrows i, hH] at hmem
      obtain ⟨r, k, hr, hk, h1, h2, h3⟩ := hmem
      have := hdest i
      exact ⟨i, k, Nat.floor ((cops.Value (s.controls i)).toRat * 64) - r, hk, by omega,
        by omega, h1, by omega, h3⟩
    · rintro ⟨i, k, j, hk, hj1, hj2, h1, h2, h3⟩
      refine ⟨i, List.mem_finRange i, ?_⟩
      rw [barCalls_eq_barRectangle _ _ _ _ i.isLt hH' (hle i), mem_barRectangle,
        hrows i, hH]
      have := hdest i
      exact ⟨Nat.floor ((cops.Value (s.controls i)).toRat * 64) - j, k, by omega, hk, h1,
        by omega, h3⟩
  · intro i k j hk hj1 hj2
    have hd := hdest i
    have hi : i.val < 4 := i.isLt
    have hj : j ≤ 64 := by omega
    refine ⟨hj, ?_, ?_, by omega, by omega⟩
    · rw [u32_of_lt (by decide), sub32_of_le (by decide) hj]
    · simp only [u32]; omega


/-- C12 on the sample board of height 64 with control values 0, 1/4, 1/2, 1. -/
theorem DisplayControls_pixels_in_range_witness :
    sub32 18 (sampleBoard 64 quarterValues 0).screen_update_last_
      > (sampleBoard 64 quarterValues 0).screen_update_period_ ∧
    (sampleBoard 64 quarterValues 0).display.height = 64 ∧
    (∀ (i : Fin CTRL_LAST) (k j : Nat), k < 15 → 1 ≤ j →
      j ≤ Nat.floor
        ((valueControls.Value ((sampleBoard 64 quarterValues 0).controls i)).toRat * 64) →
        j ≤ 64 ∧ sub32 (u32 64) j = 64 - j ∧
        u32 (u32 (u32 (u32 (20 * i.val) + 1) + u32 (15 * i.val)) + k) = 35 * i.val + 1 + k ∧
        35 * i.val + 1 + k < 128 ∧ 64 - j < 64) :=
  ⟨by decide, rfl,
    (DisplayControls_pixels_in_range valueControls (sampleBoard 64 quarterValues 0) true 18 18
      (by decide) rfl quarterValues_range).2⟩

end daisy
